import Mathlib

/-!
Verification of the data-dictionary-to-schema reconciliation engine of
`scripts/model_management/update_model_from_dd.py`.

The Python source is shallowly embedded: dictionaries become association
lists (`List (String × _)`), Python sets of strings become lists with
set-style insertion (plus a canonical sorted/deduplicated form wherever the
source compares `frozenset`s), in-place mutation becomes explicit state
passing, and file writes become traced values in the returned state.
`difflib.SequenceMatcher(None, a, b).ratio()` is kept abstract as a
parameter `ratio : String → String → ℚ`; every theorem below holds for an
arbitrary ratio function, hence in particular for the concrete one.
All string primitives are implemented over `List Char` so that closed
instances evaluate inside the kernel.
-/

/-! ## String primitives (Python `str` operations restricted to the
ASCII data handled by the script) -/

def pyIsSpace (c : Char) : Bool :=
  c = ' ' ∨ c = '\t' ∨ c = '\n' ∨ c = '\r' ∨ c = '\x0b' ∨ c = '\x0c'

def trimCharsBy (p : Char → Bool) (cs : List Char) : List Char :=
  ((cs.dropWhile p).reverse.dropWhile p).reverse

/-- Python `str.strip()`. -/
def pyStrip (s : String) : String := String.mk (trimCharsBy pyIsSpace s.toList)

def isAsciiUpperChar (c : Char) : Bool := 'A' ≤ c ∧ c ≤ 'Z'

def isAsciiLowerChar (c : Char) : Bool := 'a' ≤ c ∧ c ≤ 'z'

def isAsciiAlpha (c : Char) : Bool := isAsciiLowerChar c || isAsciiUpperChar c

def isAsciiDigit (c : Char) : Bool := '0' ≤ c ∧ c ≤ '9'

def isAsciiAlnum (c : Char) : Bool := isAsciiAlpha c || isAsciiDigit c

def asciiLower (c : Char) : Char :=
  if isAsciiUpperChar c then Char.ofNat (c.toNat + 32) else c

def asciiUpper (c : Char) : Char :=
  if isAsciiLowerChar c then Char.ofNat (c.toNat - 32) else c

/-- Python `str.lower()`. -/
def pyLower (s : String) : String := String.mk (s.toList.map asciiLower)

def titleChars : List Char → Bool → List Char
  | [], _ => []
  | c :: cs, prevCased =>
    if isAsciiAlpha c then
      (if prevCased then asciiLower c else asciiUpper c) :: titleChars cs true
    else
      c :: titleChars cs false

/-- Python `str.title()`: the first letter after a non-letter is
upper-cased, every other letter lower-cased. -/
def pyTitle (s : String) : String := String.mk (titleChars s.toList false)

def splitOnChars (p : Char → Bool) : List Char → List Char → List (List Char)
  | [], cur => [cur.reverse]
  | c :: rest, cur =>
    if p c then cur.reverse :: splitOnChars p rest []
    else splitOnChars p rest (c :: cur)

/-- Splitting on single-character separators, as Python `str.split(sep)`
and `re.split` over a character class: adjacent separators yield empty
tokens and the empty string yields `[""]`. -/
def pySplit (p : Char → Bool) (s : String) : List String :=
  (splitOnChars p s.toList []).map String.mk

def joinWith (sep : String) : List String → String
  | [] => ""
  | [x] => x
  | x :: y :: xs => x ++ sep ++ joinWith sep (y :: xs)

def replaceCharBy (a b : Char) (s : String) : String :=
  String.mk (s.toList.map (fun c => if c = a then b else c))

def listIsLeading : List Char → List Char → Bool
  | [], _ => true
  | _ :: _, [] => false
  | a :: as, b :: bs => a = b && listIsLeading as bs

/-- Python `str.startswith`. -/
def strStartsWith (s start : String) : Bool := listIsLeading start.toList s.toList

/-- Python `str.endswith`. -/
def strEndsWith (s tail : String) : Bool :=
  listIsLeading tail.toList.reverse s.toList.reverse

/-! ## Lexicographic ordering of strings (Python `sorted` on `str` keys) -/

def lexLeChars : List Char → List Char → Bool
  | [], _ => true
  | _ :: _, [] => false
  | a :: as, b :: bs => if a = b then lexLeChars as bs else Nat.blt a.toNat b.toNat

def strLe (a b : String) : Bool := lexLeChars a.toList b.toList

def insSorted (x : String) : List String → List String
  | [] => [x]
  | y :: ys => if strLe x y then x :: y :: ys else y :: insSorted x ys

/-- Python `sorted` over strings (code-point lexicographic). -/
def strSort (xs : List String) : List String := xs.foldr insSorted []

/-- Canonical form of a finite set of strings: sorted with duplicates
removed.  Two Python `frozenset`s of strings are equal iff the canonical
forms of their element lists are equal, so wherever the source compares
`frozenset`s this development compares `canonSet`s. -/
def canonSet (xs : List String) : List String := (strSort xs).dedup

/-- Python set membership flavoured insertion (`set.add`). -/
def addStr (xs : List String) (x : String) : List String :=
  if xs.contains x then xs else xs ++ [x]

/-- Python `list(dict.fromkeys(xs))`: deduplicate keeping first occurrences. -/
def dedupFirst : List String → List String
  | [] => []
  | x :: xs => x :: (dedupFirst xs).filter (fun y => y ≠ x)

def subsetStr (xs ys : List String) : Bool := xs.all (fun x => ys.contains x)

/-! ## Association-list operations (Python `dict` with string keys) -/

def assocFind? {α : Type} (l : List (String × α)) (k : String) : Option α :=
  (l.find? (fun e => e.1 = k)).map (fun e => e.2)

def assocHasKey {α : Type} (l : List (String × α)) (k : String) : Bool :=
  (l.map Prod.fst).contains k

/-- Python `dict.pop(k)` restricted to the remaining entries. -/
def assocRemoveFirst {α : Type} : List (String × α) → String → List (String × α)
  | [], _ => []
  | (k, v) :: rest, key => if k = key then rest else (k, v) :: assocRemoveFirst rest key

/-- Python `d[k] = v`: replace in place when the key exists, else append. -/
def assocSet {α : Type} : List (String × α) → String → α → List (String × α)
  | [], key, value => [(key, value)]
  | (k, v) :: rest, key, value =>
    if k = key then (k, value) :: rest else (k, v) :: assocSet rest key value

/-- Update the (unique) entry with the given key in place. -/
def updateAt {α : Type} : List (String × α) → String → (α → α) → List (String × α)
  | [], _, _ => []
  | (k, v) :: rest, key, f =>
    if k = key then (k, f v) :: rest else (k, v) :: updateAt rest key f

/-! ## Lexical path model (`os.path` on POSIX)

`os.path.abspath` is `normpath(join(cwd, p))`, a purely lexical
computation; it is modelled on `/`-separated component lists.  The current
working directory is an explicit `cwd` parameter. -/

def isSlashChar (c : Char) : Bool := c = '/'

def splitSlash (s : String) : List String := pySplit isSlashChar s

/-- Embedding of `os.path.join(a, b)` for two components on POSIX. -/
def pathJoin (a b : String) : String :=
  if strStartsWith b "/" then b
  else if a = "" ∨ strEndsWith a "/" then a ++ b
  else a ++ "/" ++ b

/-- Component normalisation of `os.path.normpath` for an absolute path:
empty and `.` components vanish, `..` pops (and is dropped at the root). -/
def normComps (cs : List String) : List String :=
  (cs.foldl
    (fun acc c =>
      if c = "" ∨ c = "." then acc
      else if c = ".." then acc.tail
      else c :: acc)
    []).reverse

def renderAbs (cs : List String) : String := "/" ++ joinWith "/" cs

/-- Component list of an absolute path (`os.path.commonpath` splits on the
separator and drops empty components). -/
def splitAbs (s : String) : List String := (splitSlash s).filter (fun c => c ≠ "")

/-- Embedding of `os.path.abspath(p)` relative to an absolute working directory. -/
def abspath (cwd p : String) : String :=
  renderAbs (normComps (splitSlash (if strStartsWith p "/" then p else pathJoin cwd p)))

def commonPrefixComps : List String → List String → List String
  | a :: as, b :: bs => if a = b then a :: commonPrefixComps as bs else []
  | _, _ => []

def commonPrefixLen : List String → List String → Nat
  | a :: as, b :: bs => if a = b then commonPrefixLen as bs + 1 else 0
  | _, _ => 0

/-- Embedding of `os.path.relpath(path, start)` (both made absolute first). -/
def relPath (cwd path start : String) : String :=
  let pc := normComps (splitSlash (if strStartsWith path "/" then path else pathJoin cwd path))
  let sc := normComps (splitSlash (if strStartsWith start "/" then start else pathJoin cwd start))
  let i := commonPrefixLen sc pc
  let rel := (List.replicate (sc.length - i) "..") ++ pc.drop i
  if rel = [] then "." else joinWith "/" rel

/-! ## Basic helpers of `update_model_from_dd.py` -/

/-- Embedding of `to_camel_case` (source lines 43-48): snake_case to camelCase via
`str.title()` on every component after the first. -/
def to_camel_case (snake_str : String) : String :=
  if snake_str = "" then ""
  else
    match pySplit (fun c => c = '_') snake_str with
    | [] => ""
    | c0 :: rest => c0 ++ joinWith "" (rest.map pyTitle)

/-- Embedding of `normalize_view_name` (lines 50-52). -/
def normalize_view_name (view_name : String) : String := pyLower (pyStrip view_name)

/-- Embedding of `normalize_value_token` (lines 364-367). -/
def normalize_value_token (value : String) : String :=
  if value = "" then "" else pyLower (pyStrip value)

/-- Embedding of `parse_values_column` (lines 369-375): split raw DD values on `;` or
`,`, strip each token, drop empties. -/
def parse_values_column (values_str : String) : List String :=
  if values_str = "" ∨ pyStrip values_str = "" then []
  else
    let tokens := pySplit (fun c => c = ';' ∨ c = ',') values_str
    (tokens.filter (fun t => t ≠ "" ∧ pyStrip t ≠ "")).map pyStrip

/-- Embedding of `is_boolean_values` (lines 377-384).  The Python function returns the
token set itself in the `normalize` branch; it is consumed only for its
truthiness, embedded here as the corresponding `Bool`. -/
def is_boolean_values (values : List String) (rule : String) : Bool :=
  let tokens := canonSet (values.map normalize_value_token)
  if rule = "strict" then decide (tokens = canonSet ["true", "false"])
  else if rule = "normalize" then
    subsetStr tokens ["true", "false", "yes", "no", "y", "n", "1", "0"] && !tokens.isEmpty
  else false

/-- Embedding of `normalize_class_name` (lines 850-852): lower-case and strip everything
outside `[a-z0-9]`. -/
def normalize_class_name (value : String) : String :=
  String.mk (((pyLower value).toList).filter (fun c => isAsciiLowerChar c || isAsciiDigit c))

/-- Embedding of `class_name_stem` (lines 854-860). -/
def class_name_stem (value : String) : String :=
  let norm := normalize_class_name value
  if strEndsWith norm "assess" then
    String.mk (norm.toList.take (norm.toList.length - 6))
  else if strEndsWith norm "prevent" then
    String.mk (norm.toList.take (norm.toList.length - 7))
  else norm

/-- Embedding of `compute_item_key` (lines 438-439). -/
def compute_item_key (view_name field_name target_class : String) : String :=
  normalize_view_name view_name ++ "|" ++ field_name ++ "|" ++ normalize_class_name target_class

/-! ## Typed model of the loaded YAML documents

The script manipulates parsed YAML as nested dictionaries; the fields it
reads and writes are modelled as typed structures.  `Option` marks keys
that may be absent (or null) in a document.  A schema store is the
`yaml_files` mapping `path -> document` as an association list. -/

structure FieldInfo where
  field : String
  description : String
  values : String
deriving DecidableEq, Repr

structure RangeAlt where
  range : Option String
deriving DecidableEq, Repr

structure AttrDef where
  title : Option String
  description : Option String
  range : Option String
  any_of : Option (List RangeAlt)
deriving DecidableEq, Repr

structure ClassDef where
  is_a : Option String
  mixins : Option (List String)
  description : Option String
  attributes : Option (List (String × AttrDef))
deriving DecidableEq, Repr

structure EnumMember where
  name : String
  description : String
deriving DecidableEq, Repr

structure EnumDef where
  description : String
  permissible_values : List EnumMember
deriving DecidableEq, Repr

structure YamlDoc where
  classes : Option (List (String × ClassDef))
  slots : Option (List (String × AttrDef))
  enums : Option (List (String × EnumDef))
deriving DecidableEq, Repr

abbrev YamlFiles : Type := List (String × YamlDoc)

/-- Embedding of `re.sub(r"[^A-Za-z0-9]+", "_", ·)`: collapse each maximal run of
non-alphanumerics into a single underscore. -/
def collapseNonAlnum : Bool → List Char → List Char
  | _, [] => []
  | inRun, c :: cs =>
    if isAsciiAlnum c then c :: collapseNonAlnum false cs
    else if inRun then collapseNonAlnum true cs
    else '_' :: collapseNonAlnum true cs

/-- Entry of the in-memory enum catalog (`build_enum_catalog`, lines
458-491).  `value_set` is the canonical form of the Python `frozenset`. -/
structure EnumEntry where
  name : String
  file : String
  value_set : List String
  raw_values : List String
deriving DecidableEq, Repr

/-- Embedding of `build_enum_catalog` (lines 458-491): one catalog entry per enum of
every loaded file, with the normalized value set and the deduplicated raw
member names. -/
def build_enum_catalog (yaml_files : YamlFiles) : List EnumEntry :=
  yaml_files.flatMap (fun pd =>
    (pd.2.enums.getD []).map (fun e =>
      let labels := (e.2.permissible_values.map (fun m => m.name)).filter (fun l => l ≠ "")
      let raws := labels.map pyStrip
      { name := e.1
        file := pd.1
        value_set := canonSet (raws.map normalize_value_token)
        raw_values := dedupFirst raws }))

/-- Embedding of `find_matching_enum` (lines 494-501): first catalog entry whose
normalized value set equals that of the given values. -/
def find_matching_enum (values : List String) (catalog : List EnumEntry) : Option EnumEntry :=
  let target_set := canonSet (values.map normalize_value_token)
  if target_set = [] then none
  else catalog.find? (fun entry => entry.value_set = target_set)

/-- The base of a suggested enum name (`suggest_enum_name`, lines 504-510):
class and attribute names are `str.title()`-cased, stripped of
non-alphanumerics, concatenated; `"Attribute"` when both vanish. -/
def suggestEnumBase (class_name attribute_name : String) : String :=
  let cleanedOf := fun (v : String) => String.mk ((pyTitle v).toList.filter isAsciiAlnum)
  let parts := ([cleanedOf class_name, cleanedOf attribute_name].filter (fun s => s ≠ ""))
  let joined := joinWith "" parts
  if joined = "" then "Attribute" else joined

/-- The candidate tried at collision-loop step `k` of `suggest_enum_name`:
`base ++ "Values"` first, then `base ++ "Values2"`, `"Values3"`, ... -/
def suggestCandidateName (base : String) (k : Nat) : String :=
  if k = 0 then base ++ "Values" else base ++ "Values" ++ toString (k + 1)

def findFirstFreeName (base : String) (existing : List String) : Nat → Nat → String
  | 0, _ => base ++ "Values"
  | fuel + 1, k =>
    let cand := suggestCandidateName base k
    if existing.contains cand then findFirstFreeName base existing fuel (k + 1) else cand

/-- Embedding of `suggest_enum_name` (lines 504-517): first collision-free candidate.
The Python `while` loop terminates within `existing.length + 1` probes
because the candidates are pairwise distinct; the fuel makes that bound
explicit.  The source also inserts the chosen name into the existing-name
set; callers of this embedding perform that insertion explicitly. -/
def suggest_enum_name (class_name attribute_name : String) (existing : List String) : String :=
  findFirstFreeName (suggestEnumBase class_name attribute_name) existing (existing.length + 1) 0

/-- Member built by `ensure_enum_definition` for one raw value (lines
531-535): strip, collapse non-alphanumeric runs to `_`, strip underscores,
lower-case, defaulting to `"value"`; the description keeps the raw value. -/
def enumMemberOfValue (value : String) : EnumMember :=
  let collapsed := String.mk (collapseNonAlnum false (pyStrip value).toList)
  let cleaned := pyLower (String.mk (trimCharsBy (fun c => c = '_') collapsed.toList))
  { name := if cleaned = "" then "value" else cleaned, description := value }

def mkEnumDef (enum_name : String) (values : List String) : EnumDef :=
  { description := "Values for " ++ enum_name
    permissible_values := values.map enumMemberOfValue }

/-- Embedding of `ensure_enum_definition` (lines 520-536): create the target file entry
and its `enums` mapping when missing, then insert the enum unless already
present. -/
def ensure_enum_definition (yaml_files : YamlFiles) (target_file enum_name : String)
    (values : List String) : YamlFiles :=
  match assocFind? yaml_files target_file with
  | none =>
    yaml_files ++ [(target_file,
      { classes := none, slots := none, enums := some [(enum_name, mkEnumDef enum_name values)] })]
  | some data =>
    if assocHasKey (data.enums.getD []) enum_name then yaml_files
    else
      updateAt yaml_files target_file (fun d =>
        { d with enums := some ((d.enums.getD []) ++ [(enum_name, mkEnumDef enum_name values)]) })

/-! ## Enum resolver (`determine_attribute_range`, lines 539-577) -/

structure RangeDecision where
  range : String
  enumAction : String
  enumEntry : Option EnumEntry
  yamlFiles : YamlFiles
  enumCatalog : List EnumEntry
  existingEnumNames : List String
deriving Repr

/-- Embedding of `determine_attribute_range` (lines 539-577), with the mutations of
`yaml_files`, `enum_catalog` and `existing_enum_names` returned
explicitly. -/
def determine_attribute_range (enumStrategy booleanRule : String) (field : FieldInfo)
    (base_range target_class_name target_file : String) (yaml_files : YamlFiles)
    (enum_catalog : List EnumEntry) (existing_enum_names : List String) : RangeDecision :=
  let values := parse_values_column field.values
  if values = [] then
    ⟨base_range, "none", none, yaml_files, enum_catalog, existing_enum_names⟩
  else if is_boolean_values values booleanRule then
    ⟨"boolean", "boolean", none, yaml_files, enum_catalog, existing_enum_names⟩
  else if enumStrategy = "keep-string" then
    ⟨base_range, "none", none, yaml_files, enum_catalog, existing_enum_names⟩
  else
    let normalized_values := values.filter (fun v => v ≠ "")
    if normalized_values = [] then
      ⟨"string", "none", none, yaml_files, enum_catalog, existing_enum_names⟩
    else
      let value_set := canonSet (normalized_values.map normalize_value_token)
      let matching_enum :=
        if enumStrategy = "reuse-first" then find_matching_enum normalized_values enum_catalog
        else none
      match matching_enum with
      | some m => ⟨m.name, "reuse", some m, yaml_files, enum_catalog, existing_enum_names⟩
      | none =>
        let enum_name :=
          suggest_enum_name target_class_name (to_camel_case field.field) existing_enum_names
        let yaml_files2 := ensure_enum_definition yaml_files target_file enum_name normalized_values
        let new_entry : EnumEntry :=
          { name := enum_name, file := target_file
            value_set := value_set, raw_values := normalized_values }
        ⟨enum_name, "create", some new_entry, yaml_files2,
          enum_catalog ++ [new_entry], addStr existing_enum_names enum_name⟩

/-! ## Class lookup (`find_class_in_yaml`, lines 1075-1116)

`SequenceMatcher.ratio` is the abstract parameter `ratio`. -/

/-- Exact-key pass of `find_class_in_yaml` (lines 1077-1080). -/
def exactClassPass (yaml_files : YamlFiles) (class_name : String) :
    Option (String × String × ClassDef) :=
  match yaml_files with
  | [] => none
  | (p, d) :: rest =>
    match (d.classes.getD []).find? (fun e => e.1 = class_name) with
    | some e => some (p, class_name, e.2)
    | none => exactClassPass rest class_name

/-- Case-insensitive pass of `find_class_in_yaml` (lines 1085-1092). -/
def ciClassScan (target_lower : String) : List (String × ClassDef) → Option (String × ClassDef)
  | [] => none
  | e :: rest =>
    if pyLower e.1 = target_lower then some e else ciClassScan target_lower rest

def ciClassPass (yaml_files : YamlFiles) (target_lower : String) :
    Option (String × String × ClassDef) :=
  match yaml_files with
  | [] => none
  | (p, d) :: rest =>
    match ciClassScan target_lower (d.classes.getD []) with
    | some e => some (p, e.1, e.2)
    | none => ciClassPass rest target_lower

/-- Inner loop of the normalized/stem/fuzzy pass (lines 1098-1112):
`Sum.inl` is the early return on a normalized or stem match, `Sum.inr` the
updated best fuzzy candidate. -/
def nsfClassScan (ratio : String → String → ℚ) (tn ts p : String) :
    List (String × ClassDef) → Option (ℚ × String × String × ClassDef) →
    Sum (String × String × ClassDef) (Option (ℚ × String × String × ClassDef))
  | [], best => Sum.inr best
  | (en, cd) :: rest, best =>
    let enorm := normalize_class_name en
    if enorm = "" then nsfClassScan ratio tn ts p rest best
    else if tn = enorm ∨ (ts ≠ "" ∧ ts = class_name_stem en) then Sum.inl (p, en, cd)
    else
      let r := ratio tn enorm
      let best2 :=
        if r ≥ (92 : ℚ) / 100 then
          match best with
          | none => some (r, p, en, cd)
          | some b => if r > b.1 then some (r, p, en, cd) else best
        else best
      nsfClassScan ratio tn ts p rest best2

def nsfClassPass (ratio : String → String → ℚ) (tn ts : String) :
    YamlFiles → Option (ℚ × String × String × ClassDef) → Option (String × String × ClassDef)
  | [], best => best.map (fun b => b.2)
  | (p, d) :: rest, best =>
    match nsfClassScan ratio tn ts p (d.classes.getD []) best with
    | Sum.inl hit => some hit
    | Sum.inr best2 => nsfClassPass ratio tn ts rest best2

/-- Embedding of `find_class_in_yaml` (lines 1075-1116): exact key match, then (when
`loose`) case-insensitive key match, then a combined normalized-stem /
fuzzy (threshold 0.92) pass. -/
def find_class_in_yaml (ratio : String → String → ℚ) (yaml_files : YamlFiles)
    (class_name : String) (loose : Bool) : Option (String × String × ClassDef) :=
  match exactClassPass yaml_files class_name with
  | some r => some r
  | none =>
    if !loose then none
    else
      match ciClassPass yaml_files (pyLower class_name) with
      | some r => some r
      | none =>
        nsfClassPass ratio (normalize_class_name class_name) (class_name_stem class_name)
          yaml_files none

/-! ## Closest candidate and grouped file choice -/

/-- Python `round(x, 4)` (banker's rounding), on the rational standing in
for the float. -/
def round4 (q : ℚ) : ℚ :=
  let scaled := q * 10000
  let fl : ℤ := ⌊scaled⌋
  let frac := scaled - (fl : ℚ)
  let n : ℤ :=
    if frac < 1 / 2 then fl
    else if frac > 1 / 2 then fl + 1
    else if fl % 2 = 0 then fl else fl + 1
  (n : ℚ) / 10000

structure ClosestCandidate where
  score : ℚ
  class_name : String
  file : String
  attribute_count : Nat
deriving DecidableEq, Repr

/-- Inner candidate update of `find_closest_class_candidate` (lines
1124-1145): the stored score is rounded to 4 digits, and the strictly-
greater comparison is made against the stored (rounded) score. -/
def closestScan (ratio : String → String → ℚ) (target_name tn p : String) :
    List (String × ClassDef) → Option ClosestCandidate → Option ClosestCandidate
  | [], best => best
  | (en, cd) :: rest, best =>
    let enorm := normalize_class_name en
    if enorm = "" then closestScan ratio target_name tn p rest best
    else
      let score := max (ratio tn enorm) (ratio (class_name_stem target_name) (class_name_stem en))
      let keep :=
        match best with
        | none => true
        | some b => score > b.score
      let best2 :=
        if keep then
          some { score := round4 score, class_name := en, file := p
                 attribute_count := (cd.attributes.getD []).length }
        else best
      closestScan ratio target_name tn p rest best2

def closestPass (ratio : String → String → ℚ) (target_name tn : String) :
    YamlFiles → Option ClosestCandidate → Option ClosestCandidate
  | [], best => best
  | (p, d) :: rest, best =>
    closestPass ratio target_name tn rest (closestScan ratio target_name tn p (d.classes.getD []) best)

/-- Embedding of `find_closest_class_candidate` (lines 1118-1146). -/
def find_closest_class_candidate (ratio : String → String → ℚ) (yaml_files : YamlFiles)
    (class_name : String) : Option ClosestCandidate :=
  let tn := normalize_class_name class_name
  if tn = "" then none
  else closestPass ratio class_name tn yaml_files none

/-- Best per-file class-name similarity of `choose_grouped_assessment_file`
(lines 881-885). -/
def fileBestScore (ratio : String → String → ℚ) (target_norm : String) :
    List (String × ClassDef) → ℚ → ℚ
  | [], acc => acc
  | (en, _) :: rest, acc =>
    let s := ratio target_norm (class_name_stem en)
    fileBestScore ratio target_norm rest (if s > acc then s else acc)

def chooseGroupedScan (ratio : String → String → ℚ) (cwd modules_abs target_norm : String) :
    YamlFiles → Option (ℚ × String) → Option (ℚ × String)
  | [], best => best
  | (p, d) :: rest, best =>
    match d.classes with
    | none => chooseGroupedScan ratio cwd modules_abs target_norm rest best
    | some classes =>
      let rel := replaceCharBy '\\' '/' (relPath cwd p modules_abs)
      if !strStartsWith rel "clinical/assessments/" then
        chooseGroupedScan ratio cwd modules_abs target_norm rest best
      else
        let fb := fileBestScore ratio target_norm classes 0
        let best2 :=
          match best with
          | none => some (fb, p)
          | some b => if fb > b.1 then some (fb, p) else best
        chooseGroupedScan ratio cwd modules_abs target_norm rest best2

/-- Embedding of `choose_grouped_assessment_file` (lines 862-893): pick the
`clinical/assessments` file with the most similar class stems, else the
shared fallback file. -/
def choose_grouped_assessment_file (ratio : String → String → ℚ) (cwd modules_dir : String)
    (yaml_files : YamlFiles) (class_name : String) : String :=
  let modules_abs := abspath cwd modules_dir
  let target_norm := class_name_stem class_name
  match chooseGroupedScan ratio cwd modules_abs target_norm yaml_files none with
  | some b =>
    if b.1 ≥ (62 : ℚ) / 100 then b.2
    else pathJoin (pathJoin (pathJoin modules_dir "clinical") "assessments")
      "other_generated_assessments.yaml"
  | none =>
    pathJoin (pathJoin (pathJoin modules_dir "clinical") "assessments")
      "other_generated_assessments.yaml"

/-! ## Class rename (`rename_class_and_references`, lines 592-663) -/

/-- Embedding of `_replace_class_reference_in_attr` (lines 592-602): rewrite `range` and
every `any_of` alternative equal to the old class name. -/
def replaceClassRefInAttr (old_class_name new_class_name : String) (attr_def : AttrDef) : AttrDef :=
  { attr_def with
    range := if attr_def.range = some old_class_name then some new_class_name else attr_def.range
    any_of := attr_def.any_of.map (fun opts =>
      opts.map (fun o =>
        if o.range = some old_class_name then { o with range := some new_class_name } else o)) }

/-- Rewrite of one class definition during a rename (lines 630-652):
`is_a`, `mixins` entries and attribute references. -/
def rewriteClassDef (old_name new_name : String) (cd : ClassDef) : ClassDef :=
  { cd with
    is_a := if cd.is_a = some old_name then some new_name else cd.is_a
    mixins := cd.mixins.map (fun ms => ms.map (fun m => if m = old_name then new_name else m))
    attributes := cd.attributes.map (fun attrs =>
      attrs.map (fun e => (e.1, replaceClassRefInAttr old_name new_name e.2))) }

/-- Whether the rename pass registers one class as touching its file:
the `is_a` branch fires on equality, the `mixins` and `attributes`
branches on an actual change (the source compares JSON dumps). -/
def classRenameTouches (old_name new_name : String) (cd : ClassDef) : Bool :=
  cd.is_a = some old_name
    ∨ cd.mixins.map (fun ms => ms.map (fun m => if m = old_name then new_name else m)) ≠ cd.mixins
    ∨ cd.attributes.map (fun attrs =>
        attrs.map (fun e => (e.1, replaceClassRefInAttr old_name new_name e.2))) ≠ cd.attributes

/-- Rewrite of one document during a rename (classes then slots), paired
with whether the document's path joins the touched set. -/
def renameRewriteDoc (old_name new_name : String) (d : YamlDoc) : YamlDoc × Bool :=
  let newSlots := d.slots.map (fun sl =>
    sl.map (fun e => (e.1, replaceClassRefInAttr old_name new_name e.2)))
  let doc :=
    { d with
      classes := d.classes.map (fun cs => cs.map (fun e => (e.1, rewriteClassDef old_name new_name e.2)))
      slots := newSlots }
  let touched :=
    (d.classes.getD []).any (fun e => classRenameTouches old_name new_name e.2)
      ∨ newSlots ≠ d.slots
  (doc, touched)

structure RenameResult where
  renamed : Bool
  renamedPath : Option String
  renamedClassDef : Option ClassDef
  touchedPaths : List String
  message : String
  files : YamlFiles
deriving Repr

def emptyClassDef : ClassDef := ⟨none, none, none, none⟩

/-- Embedding of `rename_class_and_references` (lines 604-663).  The moved class
definition object is aliased into the store in Python, so the returned
`renamedClassDef` carries the reference rewrites applied by the pass. -/
def rename_class_and_references (ratio : String → String → ℚ) (yaml_files : YamlFiles)
    (old_class_name new_class_name : String) : RenameResult :=
  if old_class_name = new_class_name then
    ⟨false, none, none, [], "old_and_new_class_names_are_same", yaml_files⟩
  else
    match find_class_in_yaml ratio yaml_files old_class_name true with
    | none => ⟨false, none, none, [], "source_class_not_found", yaml_files⟩
    | some (old_path, old_existing_name, _) =>
      let conflict :=
        match find_class_in_yaml ratio yaml_files new_class_name false with
        | some (_, new_existing_name, _) =>
          decide (normalize_class_name new_existing_name ≠ normalize_class_name old_existing_name)
        | none => false
      if conflict then
        ⟨false, none, none, [], "target_class_name_already_exists", yaml_files⟩
      else
        let old_doc := (assocFind? yaml_files old_path).getD ⟨none, none, none⟩
        let moved_def := (assocFind? (old_doc.classes.getD []) old_existing_name).getD emptyClassDef
        let files1 := updateAt yaml_files old_path (fun d =>
          { d with classes := some (assocSet
              (assocRemoveFirst (d.classes.getD []) old_existing_name)
              new_class_name moved_def) })
        let files2 := files1.map (fun pd =>
          (pd.1, (renameRewriteDoc old_existing_name new_class_name pd.2).1))
        let flagged := (files1.filter (fun pd =>
          (renameRewriteDoc old_existing_name new_class_name pd.2).2)).map Prod.fst
        let touched := strSort (dedupFirst (old_path :: flagged))
        ⟨true, some old_path, some (rewriteClassDef old_existing_name new_class_name moved_def),
          touched, "renamed", files2⟩

/-- Number of classes stored under a given key in one document. -/
def docClassKeyCount (d : YamlDoc) (k : String) : Nat :=
  (d.classes.getD []).countP (fun e => e.1 = k)

/-- Number of classes stored under a given key across the whole store. -/
def storeClassKeyCount (files : YamlFiles) (k : String) : Nat :=
  (files.map (fun pd => docClassKeyCount pd.2 k)).sum

/-- Whether an attribute-like object still references a class name through
`range` or an `any_of` alternative. -/
def attrRefsClass (a : AttrDef) (k : String) : Bool :=
  a.range = some k || (a.any_of.getD []).any (fun o => o.range = some k)

/-- Whether a document still references a class name through any `is_a`,
`mixins` entry, attribute or slot `range` (including `any_of`). -/
def docRefsClass (d : YamlDoc) (k : String) : Bool :=
  (d.classes.getD []).any (fun e =>
      e.2.is_a = some k
        || (e.2.mixins.getD []).contains k
        || (e.2.attributes.getD []).any (fun ae => attrRefsClass ae.2 k))
    || (d.slots.getD []).any (fun se => attrRefsClass se.2 k)

/-! ## Target-file sanitisation (`resolve_target_file`, lines 1168-1186) -/

/-- Embedding of `resolve_target_file` (lines 1168-1186): keep an oracle-suggested path
only when `os.path.commonpath([modules_abs, target]) == modules_abs`, else
fall back.  Both compared paths are normalized absolute renders, for which
the string comparison coincides with component-prefix comparison. -/
def resolve_target_file (cwd modules_dir : String) (suggested_file : Option String)
    (fallback_file : String) : String :=
  match suggested_file with
  | none => fallback_file
  | some s =>
    if s = "" then fallback_file
    else
      let modules_abs := abspath cwd modules_dir
      let candidate := pyStrip s
      let target :=
        if strStartsWith candidate "/" then abspath cwd candidate
        else abspath cwd (pathJoin modules_abs candidate)
      if renderAbs (commonPrefixComps (splitAbs modules_abs) (splitAbs target)) ≠ modules_abs then
        fallback_file
      else target

/-! ## Dictionary parser (`parse_data_dictionary`, lines 63-89)

A CSV file is a list of rows, each a list of cell strings. -/

/-- Append a field to the group of the given view; the key is always
present when this is reached (Python indexes `data[current_view]`). -/
def ddAddField (acc : List (String × List FieldInfo)) (view : String) (fi : FieldInfo) :
    List (String × List FieldInfo) :=
  match acc with
  | [] => []
  | (k, fs) :: rest =>
    if k = view then (k, fs ++ [fi]) :: rest else (k, fs) :: ddAddField rest view fi

/-- Row loop of `parse_data_dictionary` (lines 71-86). -/
def ddSourceRows : List (List String) → Option String → List (String × List FieldInfo) →
    List (String × List FieldInfo)
  | [], _, acc => acc
  | row :: rest, current_view, acc =>
    if row.all (fun c => c = "") then ddSourceRows rest current_view acc
    else
      let view_name := pyStrip (row.headD "")
      let current_view2 := if view_name ≠ "" then some view_name else current_view
      let acc2 :=
        if view_name ≠ "" ∧ ¬ assocHasKey acc view_name then acc ++ [(view_name, [])] else acc
      let acc3 :=
        match current_view2 with
        | some cv =>
          if 1 < row.length ∧ row.getD 1 "" ≠ "" then
            ddAddField acc2 cv ⟨row.getD 1 "", row.getD 2 "", row.getD 3 ""⟩
          else acc2
        | none => acc2
      ddSourceRows rest current_view2 acc3

/-- Embedding of `parse_data_dictionary` (lines 63-89): skip the header row (an empty
file raises `StopIteration`, caught to return the empty mapping). -/
def parse_data_dictionary (rows : List (List String)) : List (String × List FieldInfo) :=
  match rows with
  | [] => []
  | _header :: body => ddSourceRows body none []

/-- Spec-level restatement of the parser contract of claim C9, written
from the claim's words: a row whose column 0 has content starts a new
current-view group (created immediately, so it persists with zero fields);
rows with blank column 0 continue the current view; a row contributes a
field iff a current view exists and column 1 is non-empty; columns 2 and 3
default to the empty string. -/
def ddSpecRows : List (List String) → Option String → List (String × List FieldInfo) →
    List (String × List FieldInfo)
  | [], _, acc => acc
  | row :: rest, current_view, acc =>
    let v := pyStrip (row.getD 0 "")
    let current_view2 := if v ≠ "" then some v else current_view
    let acc2 :=
      if v ≠ "" then (if assocHasKey acc v then acc else acc ++ [(v, [])]) else acc
    let f := row.getD 1 ""
    let acc3 :=
      match current_view2 with
      | some cv => if f ≠ "" then ddAddField acc2 cv ⟨f, row.getD 2 "", row.getD 3 ""⟩ else acc2
      | none => acc2
    ddSpecRows rest current_view2 acc3

def ddSpecParse (body : List (List String)) : List (String × List FieldInfo) :=
  ddSpecRows body none []

/-! ## Run configuration and `compute_args_signature` (lines 386-396) -/

structure Args where
  mode : String
  ai_provider : String
  enum_strategy : String
  boolean_rule : String
  use_gemini_review : Bool
  proposal_path : String
  checkpoint_path : String
  resume : Bool
  reset_checkpoint : Bool
  pause_after : Nat
  modules_dir : String
  dry_run : Bool
  gemini_timeout : Nat
  codex_timeout : Nat
  use_codex_fallback : Bool
  auto_accept_gemini : Bool
  confirm_attribute_changes : Bool
deriving DecidableEq, Repr

def hexDigitChar (n : Nat) : Char :=
  if n < 10 then Char.ofNat ('0'.toNat + n) else Char.ofNat ('a'.toNat + n - 10)

def hex4 (n : Nat) : String :=
  String.mk [hexDigitChar (n / 4096 % 16), hexDigitChar (n / 256 % 16),
    hexDigitChar (n / 16 % 16), hexDigitChar (n % 16)]

/-- JSON string escaping of `json.dumps` with `ensure_ascii` (the default):
quote, backslash, the short control escapes, `\uXXXX` for the remaining
characters outside `0x20..0x7e` (surrogate pairs beyond the BMP). -/
def jsonEscapeChar (c : Char) : String :=
  if c = '"' then "\\\""
  else if c = '\\' then "\\\\"
  else if c = '\n' then "\\n"
  else if c = '\t' then "\\t"
  else if c = '\r' then "\\r"
  else if c = '\x08' then "\\b"
  else if c = '\x0c' then "\\f"
  else if c.toNat < 32 ∨ c.toNat > 126 then
    if c.toNat ≤ 65535 then "\\u" ++ hex4 c.toNat
    else
      let v := c.toNat - 65536
      "\\u" ++ hex4 (55296 + v / 1024) ++ "\\u" ++ hex4 (56320 + v % 1024)
  else String.mk [c]

def jsonStringLit (s : String) : String :=
  "\"" ++ joinWith "" (s.toList.map jsonEscapeChar) ++ "\""

def jsonBool (b : Bool) : String := if b then "true" else "false"

/-- The serialized form hashed by `compute_args_signature` (lines 386-396):
`json.dumps` of the six relevant options with `sort_keys=True` (keys in
alphabetical order, default separators). -/
def serializeRelevantArgs (mode ai_provider enum_strategy boolean_rule : String)
    (use_gemini_review : Bool) (proposal_abs : String) : String :=
  "\x7b\"ai_provider\": " ++ jsonStringLit ai_provider
    ++ ", \"boolean_rule\": " ++ jsonStringLit boolean_rule
    ++ ", \"enum_strategy\": " ++ jsonStringLit enum_strategy
    ++ ", \"mode\": " ++ jsonStringLit mode
    ++ ", \"proposal_path\": " ++ jsonStringLit proposal_abs
    ++ ", \"use_gemini_review\": " ++ jsonBool use_gemini_review
    ++ "\x7d"

/-- Embedding of `compute_args_signature` (lines 386-396) with SHA-256 abstracted as a
parameter `sha256hex` over the serialized text. -/
def compute_args_signature (sha256hex : String → String) (cwd : String) (args : Args)
    (proposal_path : String) : String :=
  sha256hex (serializeRelevantArgs args.mode args.ai_provider args.enum_strategy
    args.boolean_rule args.use_gemini_review (abspath cwd proposal_path))

/-! ## Checkpoint state and the startup gate of `main` (lines 1520-1530) -/

structure ModeCheckpoint where
  completed_keys : List String := []
  processed_count : Nat := 0
  args_signature : Option String := none
deriving DecidableEq, Repr

inductive StartupResult
  | fatalConfigError (msg : String)
  | proceed (sig : String)
deriving DecidableEq, Repr

/-- The checkpoint-signature gate of `main` (lines 1520-1530): after an
optional reset (which discards the checkpoint file and the mode entry),
a stored non-empty signature differing from the computed one is a fatal
configuration error (`parser.error`). -/
def checkpointSignatureGate (sha256hex : String → String) (cwd : String) (args : Args)
    (checkpoint_root : List (String × ModeCheckpoint)) : StartupResult :=
  let effRoot := if args.reset_checkpoint then [] else checkpoint_root
  let mode_checkpoint := (assocFind? effRoot args.mode).getD {}
  let args_signature := compute_args_signature sha256hex cwd args args.proposal_path
  match mode_checkpoint.args_signature with
  | some s =>
    if s ≠ "" ∧ s ≠ args_signature then
      .fatalConfigError "Checkpoint arguments differ; run with --reset-checkpoint to continue."
    else .proceed args_signature
  | none => .proceed args_signature

/-- Embedding of `main` up to and including the signature gate, with everything after
the gate abstracted as `rest` (a producer of file writes).  The only file
mutation before the gate is the checkpoint removal of an explicit
`--reset-checkpoint`; `parser.error` aborts the process, so on the fatal
path no write from `rest` happens. -/
def mainRun (sha256hex : String → String) (cwd : String) (args : Args)
    (checkpoint_root : List (String × ModeCheckpoint)) (checkpoint_file_exists : Bool)
    (rest : String → List String) : StartupResult × List String :=
  let removals :=
    if args.reset_checkpoint ∧ checkpoint_file_exists then
      ["remove:" ++ abspath cwd args.checkpoint_path]
    else []
  match checkpointSignatureGate sha256hex cwd args checkpoint_root with
  | .fatalConfigError m => (.fatalConfigError m, removals)
  | .proceed sig => (.proceed sig, removals ++ rest sig)

/-! ## Assess mode (`run_assess_mode`, lines 906-1074)

The engine is a fold over the sorted view names with an inner fold over
each view's fields.  File effects are traced in the state: proposal rows
(`writer.writerow`), checkpoint snapshots (`save_checkpoint`) and schema
persists (`persist_yaml_file`, which `run_assess_mode` never calls).  The
SIGINT flag starts false (line 918) and, absent signals, is set only by
the `--pause-after` budget.  `viewTrace` and `itemTrace` record the
processing order of views and of (view, raw field) items. -/

structure ProposalRow where
  item_key : String
  view_name : String
  form_name : String
  field_name : String
  mapped_class : String
  target_file : String
  action : String
  attribute_name : String
  attribute_range : String
  enum_action : String
  enum_name : String
  enum_values : String
  values_raw : String
  reason : String
  status : String
  approved : String
deriving DecidableEq, Repr

/-- Embedding of `json.dumps` of a list of strings (the `enum_values` cell). -/
def jsonStringList (xs : List String) : String :=
  "[" ++ joinWith ", " (xs.map jsonStringLit) ++ "]"

structure CheckpointBlob where
  completed_keys : List String
  processed_count : Nat
  args_signature : String
deriving DecidableEq, Repr

structure AssessState where
  yamlFiles : YamlFiles
  schemaWrites : List String
  completedKeys : List String
  existingKeys : List String
  processedCount : Nat
  enumCatalog : List EnumEntry
  existingEnumNames : List String
  rows : List ProposalRow
  checkpointWrites : List CheckpointBlob
  pauseCounter : Nat
  stopRequested : Bool
  viewTrace : List String
  itemTrace : List (String × String)

/-- Embedding of `persist_checkpoint_state` (lines 924-929): snapshot the sorted
completed set, the processed count and the signature. -/
def persistCheckpointState (sig : String) (st : AssessState) : AssessState :=
  { st with checkpointWrites := st.checkpointWrites ++
      [⟨strSort st.completedKeys, st.processedCount, sig⟩] }

/-- Per-view context computed before the field loop (lines 942-964). -/
structure ViewCtx where
  viewName : String
  mappedClass : String
  mappedFormName : String
  classExists : Bool
  targetClassName : String
  targetFile : String
  attrNames : List String
  closest : Option ClosestCandidate

/-- Outcome of the inline enum-resolution block of the assess field loop
(lines 977-1005): resolved range, enum action and name, and the updated
catalog and name set. -/
structure AssessEnumOut where
  range : String
  action : String
  name : String
  catalog : List EnumEntry
  names : List String

def assessEnumBlock (args : Args) (ctx : ViewCtx) (st : AssessState)
    (attr_name : String) (field_values : List String) : AssessEnumOut :=
  if is_boolean_values field_values args.boolean_rule then
    ⟨"boolean", "none", "", st.enumCatalog, st.existingEnumNames⟩
  else if field_values ≠ [] ∧ args.enum_strategy ≠ "keep-string" then
    let normalized_values := field_values.filter (fun v => v ≠ "")
    let value_set := canonSet (normalized_values.map normalize_value_token)
    let matching_enum :=
      if args.enum_strategy = "reuse-first" then
        find_matching_enum normalized_values st.enumCatalog
      else none
    match matching_enum with
    | some m => ⟨m.name, "reuse", m.name, st.enumCatalog, st.existingEnumNames⟩
    | none =>
      let en := suggest_enum_name ctx.targetClassName attr_name st.existingEnumNames
      ⟨en, "create", en,
        st.enumCatalog ++ [{ name := en, file := ctx.targetFile
                             value_set := value_set, raw_values := normalized_values }],
        addStr st.existingEnumNames en⟩
  else ⟨"string", "none", "", st.enumCatalog, st.existingEnumNames⟩

/-- Status metadata of one assess row (lines 1006-1025). -/
structure RowMeta where
  status : String
  action : String
  reason : String

def assessRowMeta (ctx : ViewCtx) (attr_name : String) : RowMeta :=
  if ctx.classExists then
    ⟨"new_attribute", "add_attribute",
      "Class \x27" ++ ctx.targetClassName ++ "\x27 exists in " ++ ctx.targetFile
        ++ "; attribute \x27" ++ attr_name ++ "\x27 missing."⟩
  else
    match ctx.closest with
    | some c =>
      ⟨"new_class", "create_class",
        "Mapped \x27" ++ ctx.mappedClass ++ "\x27 missing; closest candidate \x27"
          ++ c.class_name ++ "\x27 (" ++ c.file ++ ")."⟩
    | none =>
      ⟨"new_class", "create_class",
        "Mapped class \x27" ++ ctx.mappedClass ++ "\x27 missing in modules; will create."⟩

/-- Field body of the assess loop (lines 966-1063). -/
def assessFieldStep (args : Args) (sig : String) (ctx : ViewCtx)
    (st : AssessState) (field : FieldInfo) : AssessState :=
  if st.stopRequested then st
  else
    let st := { st with itemTrace := st.itemTrace ++ [(ctx.viewName, field.field)] }
    let raw_field := field.field
    let attr_name := to_camel_case raw_field
    if attr_name = "" then st
    else
      let item_key := compute_item_key ctx.viewName attr_name ctx.targetClassName
      if st.completedKeys.contains item_key then st
      else
        let field_values := parse_values_column field.values
        let eb := assessEnumBlock args ctx st attr_name field_values
        let st2 := { st with enumCatalog := eb.catalog, existingEnumNames := eb.names }
        if ctx.classExists && ctx.attrNames.contains attr_name then
          { st2 with completedKeys := addStr st2.completedKeys item_key }
        else
          let meta := assessRowMeta ctx attr_name
          let row : ProposalRow :=
            { item_key := item_key
              view_name := ctx.viewName
              form_name := ctx.mappedFormName
              field_name := raw_field
              mapped_class := ctx.mappedClass
              target_file := ctx.targetFile
              action := meta.action
              attribute_name := attr_name
              attribute_range := eb.range
              enum_action := eb.action
              enum_name := eb.name
              enum_values := jsonStringList field_values
              values_raw := field.values
              reason := meta.reason
              status := meta.status
              approved := "false" }
          let st3 :=
            { st2 with
              rows := st2.rows ++ [row]
              pauseCounter := st2.pauseCounter + 1
              processedCount := st2.processedCount + 1
              existingKeys := addStr st2.existingKeys item_key
              completedKeys := addStr st2.completedKeys item_key }
          let st4 := persistCheckpointState sig st3
          if args.pause_after ≠ 0 ∧ st4.pauseCounter ≥ args.pause_after then
            { st4 with stopRequested := true }
          else st4

/-- Per-view context computation (lines 942-964). -/
def assessViewCtx (ratio : String → String → ℚ) (cwd : String) (args : Args)
    (view_to_form_name : List (String × String)) (yamlFiles : YamlFiles)
    (view_name normalized_view mapped_class : String) : ViewCtx :=
  let mapped_form_name := (assocFind? view_to_form_name normalized_view).getD ""
  match find_class_in_yaml ratio yamlFiles mapped_class true with
  | some (p, n, cd) =>
    { viewName := view_name, mappedClass := mapped_class
      mappedFormName := mapped_form_name, classExists := true
      targetClassName := n, targetFile := p
      attrNames := (cd.attributes.getD []).map Prod.fst, closest := none }
  | none =>
    { viewName := view_name, mappedClass := mapped_class
      mappedFormName := mapped_form_name, classExists := false
      targetClassName := mapped_class
      targetFile := choose_grouped_assessment_file ratio cwd args.modules_dir yamlFiles mapped_class
      attrNames := []
      closest := find_closest_class_candidate ratio yamlFiles mapped_class }

/-- View body of the assess loop (lines 939-965). -/
def assessViewStep (ratio : String → String → ℚ) (cwd : String) (args : Args) (sig : String)
    (view_to_class view_to_form_name : List (String × String))
    (all_dd_data : List (String × List FieldInfo))
    (st : AssessState) (view_name : String) : AssessState :=
  if st.stopRequested then st
  else
    let st := { st with viewTrace := st.viewTrace ++ [view_name] }
    let normalized_view := normalize_view_name view_name
    match assocFind? view_to_class normalized_view with
    | none => st
    | some mapped_class =>
      let ctx := assessViewCtx ratio cwd args view_to_form_name st.yamlFiles
        view_name normalized_view mapped_class
      ((assocFind? all_dd_data view_name).getD []).foldl (assessFieldStep args sig ctx) st

/-- Embedding of `run_assess_mode` (lines 906-1074). -/
def run_assess_mode (ratio : String → String → ℚ) (cwd : String) (args : Args)
    (view_to_class view_to_form_name : List (String × String))
    (all_dd_data : List (String × List FieldInfo)) (yaml_files : YamlFiles)
    (checkpoint_completed : List String) (checkpoint_processed : Nat)
    (existing_proposal_keys : List String) (args_signature : String) : AssessState :=
  let catalog := build_enum_catalog yaml_files
  let init : AssessState :=
    { yamlFiles := yaml_files
      schemaWrites := []
      completedKeys := existing_proposal_keys.foldl addStr (dedupFirst checkpoint_completed)
      existingKeys := dedupFirst existing_proposal_keys
      processedCount := checkpoint_processed
      enumCatalog := catalog
      existingEnumNames := catalog.map (fun e => e.name)
      rows := []
      checkpointWrites := []
      pauseCounter := 0
      stopRequested := false
      viewTrace := []
      itemTrace := [] }
  let views := strSort (all_dd_data.map Prod.fst)
  let final := views.foldl
    (assessViewStep ratio cwd args args_signature view_to_class view_to_form_name all_dd_data)
    init
  persistCheckpointState args_signature final

/-! ## The apply-mode view loop head (`main`, lines 1578-1584)

Apply mode iterates `all_dd_data.items()` directly, i.e. dictionary
insertion order.  `stop_requested` is checked at the top of each
iteration; nothing in the view-loop head sets it. -/

def applyViewLoopTrace : List (String × List FieldInfo) → Bool → List String
  | [], _ => []
  | (v, _) :: rest, stop => if stop then [] else v :: applyViewLoopTrace rest stop

/-- Sequence of views iterated by the apply-mode loop of `main`
(line 1578): the dictionary's insertion order. -/
def applyModeViewTrace (all_dd_data : List (String × List FieldInfo)) : List String :=
  applyViewLoopTrace all_dd_data false

/-! ## Python name-resolution model for the apply-mode checkpoint code

`main` (lines 1881-1959) reads `completed_keys` and calls
`persist_checkpoint_state()`; a Python name that is not a local of the
running function, not a module-level binding and not a builtin raises
`NameError` at the reading occurrence.  The lists below transcribe the
binding structure of `update_model_from_dd.py`: the assignment targets of
`main` (including `for`-loop targets and augmented assignments), the
module-level definitions, and the locals of `run_assess_mode` (lines
906-1074, where the checkpoint helpers actually live). -/

def moduleLevelNames : List String :=
  ["csv", "hashlib", "json", "os", "re", "signal", "sys", "argparse", "subprocess",
   "tempfile", "SequenceMatcher", "YAML",
   "connect_to_synapse", "to_camel_case", "normalize_view_name", "is_view_like_name",
   "parse_data_dictionary", "parse_view_to_class_mapping", "parse_view_to_form_name_mapping",
   "derive_view_name_from_filename", "form_name_to_class_name", "extract_form_name_from_csv",
   "download_folder_csvs", "write_view_to_class_markdown",
   "generate_view_to_class_mapping_from_synapse", "resolve_data_dictionary_paths",
   "infer_class_description", "add_merge_note_to_class_description", "normalize_value_token",
   "parse_values_column", "is_boolean_values", "compute_args_signature", "load_checkpoint",
   "save_checkpoint", "stop_requested", "_signal_handler", "PROPOSAL_COLUMNS",
   "compute_item_key", "load_existing_proposal_keys", "build_enum_catalog",
   "find_matching_enum", "suggest_enum_name", "ensure_enum_definition",
   "determine_attribute_range", "open_proposal_writer", "_replace_class_reference_in_attr",
   "rename_class_and_references", "load_yaml_files", "check_gemini_available",
   "check_codex_available", "_parse_json_from_model_output", "run_gemini_json",
   "run_codex_json", "run_ai_json", "prompt_confirm", "prompt_review_action",
   "sanitize_filename_from_class_name", "normalize_class_name", "class_name_stem",
   "choose_grouped_assessment_file", "persist_yaml_file", "run_assess_mode",
   "find_class_in_yaml", "find_closest_class_candidate", "build_class_catalog",
   "resolve_target_file", "ai_review_class_placement", "ai_review_attribute_placement",
   "main"]

def mainLocalNames : List String :=
  ["parser", "args", "effective_use_codex_fallback", "checkpoint_path", "checkpoint_root",
   "modes_state", "mode_checkpoint", "args_signature", "view_to_class_path", "generated_path",
   "view_to_class", "view_to_form_name", "dd_paths", "all_dd_data", "dataset", "dd_path",
   "yaml_files", "class_catalog", "enum_catalog", "existing_enum_names", "view_name",
   "dd_fields", "normalized_view_name", "mapped_class_name", "mapped_form_name", "found_path",
   "found_class_name", "found_class_def", "default_class_name", "default_target_file",
   "closest_candidate", "class_name", "target_file", "force_create_new_class",
   "rename_source_class_name", "class_decision", "review_action", "feedback", "renamed",
   "renamed_path", "renamed_class_def", "touched_paths", "rename_message", "class_def",
   "field", "attr_name", "target_class_name", "target_file_for_attr", "target_attr_name",
   "target_attr_range", "target_attr_title", "attr_decision", "field_raw_name",
   "force_attribute_confirmation", "item_key", "target_path_existing",
   "target_class_existing_name", "target_class_def", "enum_action", "enum_entry", "yaml",
   "path", "data", "f", "e", "processed_count", "pause_counter"]

def runAssessModeLocalNames : List String :=
  ["args", "view_to_class", "view_to_form_name", "all_dd_data", "yaml_files",
   "checkpoint_root", "mode_checkpoint", "args_signature", "existing_keys", "completed_keys",
   "processed_count", "persist_checkpoint_state", "resume_file_exists", "writer", "handle",
   "enum_catalog", "existing_enum_names", "rows_written", "pause_counter", "view_name",
   "normalized_view", "mapped_class", "mapped_form_name", "found_path", "found_class_name",
   "found_class_def", "class_exists", "target_class_name", "target_file", "attributes",
   "attr_names", "closest_candidate", "field", "raw_field", "attr_name", "item_key",
   "field_values", "enum_action", "enum_name", "attribute_range", "normalized_values",
   "value_set", "matching_enum", "status", "action", "reason", "row"]

def pythonBuiltinNames : List String :=
  ["print", "sorted", "input", "str", "len", "set", "open", "int", "isinstance", "list",
   "dict", "bool", "float", "max", "min", "enumerate", "range", "frozenset", "any", "all",
   "next", "sum", "map", "filter", "zip", "repr", "getattr", "setattr", "hasattr", "type",
   "Exception", "RuntimeError", "IOError", "OSError", "StopIteration", "ValueError",
   "KeyError", "TypeError", "NameError", "ImportError", "True", "False", "None"]

/-- Names read by the apply-mode checkpoint code of `main` (lines 1885,
1918, 1950, 1959) whose only binding sites are inside `run_assess_mode`. -/
def applyModeCheckpointReferences : List String :=
  ["completed_keys", "persist_checkpoint_state"]

def pythonNameDefinedInMain (n : String) : Bool :=
  mainLocalNames.contains n || moduleLevelNames.contains n || pythonBuiltinNames.contains n

/-! ## Shared lemmas -/

theorem insSorted_perm (x : String) (l : List String) : List.Perm (insSorted x l) (x :: l) := by
  induction l with
  | nil => simp [insSorted]
  | cons y ys ih =>
    simp only [insSorted]
    split
    · exact List.Perm.refl _
    · exact ((ih.cons y).trans (List.Perm.swap x y ys))

theorem strSort_perm (xs : List String) : List.Perm (strSort xs) xs := by
  induction xs with
  | nil => exact List.Perm.refl _
  | cons x l ih => exact (insSorted_perm x (strSort l)).trans (ih.cons x)

theorem mem_canonSet {x : String} {xs : List String} : x ∈ canonSet xs ↔ x ∈ xs := by
  unfold canonSet
  rw [List.mem_dedup]
  exact (strSort_perm xs).mem_iff

theorem canonSet_eq_nil_iff {xs : List String} : canonSet xs = [] ↔ xs = [] := by
  constructor
  · intro h
    rcases xs with _ | ⟨x, rest⟩
    · rfl
    · exfalso
      have hx : x ∈ canonSet (x :: rest) := mem_canonSet.mpr (List.mem_cons_self x rest)
      rw [h] at hx
      exact (List.not_mem_nil x) hx
  · intro h
    subst h
    rfl

theorem mem_parse_values_ne_empty {s t : String} (h : t ∈ parse_values_column s) : t ≠ "" := by
  unfold parse_values_column at h
  split at h
  · exact absurd h (List.not_mem_nil t)
  · rcases List.mem_map.mp h with ⟨u, hu, hst⟩
    rcases List.mem_filter.mp hu with ⟨-, hcond⟩
    subst hst
    exact (decide_eq_true_iff.mp hcond).2

theorem filter_ne_empty_self (l : List String) (h : ∀ x ∈ l, x ≠ "") :
    l.filter (fun v => v ≠ "") = l := by
  apply List.filter_eq_self.mpr
  intro a ha
  exact decide_eq_true_iff.mpr (h a ha)

theorem assocFind?_cons_self {α : Type} (k : String) (v : α) (l : List (String × α)) :
    assocFind? ((k, v) :: l) k = some v := by
  simp [assocFind?, List.find?]

theorem assocFind?_append_of_none {α : Type} {l : List (String × α)} {k : String}
    (h : assocFind? l k = none) (l2 : List (String × α)) :
    assocFind? (l ++ l2) k = assocFind? l2 k := by
  induction l with
  | nil => rfl
  | cons e rest ih =>
    simp only [assocFind?, List.find?] at h ⊢
    rcases he : (decide (e.1 = k)) with _ | _
    · rw [he] at h
      simp only [List.cons_append, List.find?, he]
      exact ih h
    · rw [he] at h
      simp at h

theorem assocHasKey_false_find_none {α : Type} {l : List (String × α)} {k : String}
    (h : assocHasKey l k = false) : assocFind? l k = none := by
  induction l with
  | nil => rfl
  | cons e rest ih =>
    simp only [assocHasKey, List.map, List.contains_cons, Bool.or_eq_false_iff] at h
    simp only [assocFind?, List.find?]
    rcases he : (decide (e.1 = k)) with _ | _
    · exact ih (by simpa [assocHasKey] using h.2)
    · exfalso
      have : e.1 = k := of_decide_eq_true he
      subst this
      simp at h

theorem updateAt_find {α : Type} {l : List (String × α)} {k : String} {v : α}
    (h : assocFind? l k = some v) (f : α → α) :
    assocFind? (updateAt l k f) k = some (f v) := by
  induction l with
  | nil => simp [assocFind?] at h
  | cons e rest ih =>
    rcases e with ⟨ek, ev⟩
    by_cases hek : ek = k
    · subst hek
      rw [assocFind?_cons_self] at h
      injection h with h
      subst h
      simp [updateAt, assocFind?_cons_self]
    · have hne : (decide (ek = k)) = false := decide_eq_false hek
      simp only [assocFind?, List.find?, hne] at h
      simp only [updateAt, if_neg hek, assocFind?, List.find?, hne]
      exact ih h

/-! ## Claim C1 -/

/-- C1: the claim says apply mode records each processed item key in the
checkpoint's completed set and persists the checkpoint per item.  The
apply-mode code of `main` (lines 1881-1959) indeed reads `completed_keys`
and calls `persist_checkpoint_state()` for that purpose — but under
Python's scoping rules neither name is bound in `main`, at module level or
as a builtin; both are locals of `run_assess_mode` only.  Hence apply mode
raises `NameError` at the first field item (line 1885) — or, for a run
that reaches no field, at the final persist (line 1959) — instead of
recording anything, so the code cannot deliver the claimed behaviour. -/
theorem c1_apply_checkpoint_names_unbound :
    applyModeCheckpointReferences.all (fun n => !pythonNameDefinedInMain n) = true
      ∧ applyModeCheckpointReferences.all (fun n => runAssessModeLocalNames.contains n) = true := by
  constructor
  · decide
  · decide

/-! ## Claim C2 -/

/-- C2 counterexample: for the dictionary whose views were inserted as
`"b"` then `"a"`, the apply-mode loop of `main` (line 1578) iterates
`["b", "a"]`, which differs from the lexicographic order `["a", "b"]` the
claim asserts for both modes. -/
theorem c2_counterexample :
    applyModeViewTrace [("b", []), ("a", [])] = ["b", "a"]
      ∧ strSort ((([("b", []), ("a", [])] : List (String × List FieldInfo))).map Prod.fst) = ["a", "b"]
      ∧ applyModeViewTrace [("b", []), ("a", [])]
          ≠ strSort ((([("b", []), ("a", [])] : List (String × List FieldInfo))).map Prod.fst) := by
  refine ⟨by decide, by decide, by decide⟩

/-! ## Claim C5 -/

/-- C5 counterexample: the claim names a new enum
`{ClassName}{AttributeName}Values`, i.e. the literal concatenation of the
class name, the attribute name and `"Values"`.  `suggest_enum_name`
(lines 504-517) first applies `str.title()` (which lower-cases interior
capitals), so for class `Demographics` and attribute `ageAtOnset` the
produced name is `DemographicsAgeatonsetValues`, not
`DemographicsageAtOnsetValues`. -/
theorem c5_counterexample :
    suggest_enum_name "Demographics" "ageAtOnset" [] = "DemographicsAgeatonsetValues"
      ∧ suggest_enum_name "Demographics" "ageAtOnset" []
          ≠ "Demographics" ++ "ageAtOnset" ++ "Values" := by
  refine ⟨by decide, by decide⟩

theorem enumMemberOfValue_description (v : String) : (enumMemberOfValue v).description = v := rfl

theorem mkEnumDef_descriptions (name : String) (values : List String) :
    (mkEnumDef name values).permissible_values.map (fun m => m.description) = values := by
  simp only [mkEnumDef, List.map_map]
  have : ((fun m => EnumMember.description m) ∘ enumMemberOfValue) = fun v => v := by
    funext v
    exact enumMemberOfValue_description v
  rw [this, List.map_id']

/-- C5 (amended): a newly created enum is named
`Title(ClassName) ++ Title(AttributeName) ++ "Values"` where `Title`
title-cases and removes non-alphanumerics (`suggestEnumBase`); on a
collision with an existing enum name a numeric suffix starting at `2` is
tried (`...Values2`, `...Values3`, ...); its members are the raw values
slugified (trim, non-alphanumeric runs to `_`, underscores stripped at the
ends, lower-cased, `"value"` when empty) and each member's description is
the original raw value token. -/
theorem c5_enum_naming_amended :
    (∀ c a existing, existing.contains (suggestEnumBase c a ++ "Values") = false →
        suggest_enum_name c a existing = suggestEnumBase c a ++ "Values")
      ∧ (∀ c a existing, existing.contains (suggestEnumBase c a ++ "Values") = true →
          existing.contains (suggestEnumBase c a ++ "Values" ++ "2") = false →
          suggest_enum_name c a existing = suggestEnumBase c a ++ "Values" ++ "2")
      ∧ (∀ files tf name values,
          (∀ d, assocFind? files tf = some d → assocHasKey (d.enums.getD []) name = false) →
          ∃ doc, assocFind? (ensure_enum_definition files tf name values) tf = some doc
            ∧ assocFind? (doc.enums.getD []) name = some (mkEnumDef name values)
            ∧ (mkEnumDef name values).permissible_values.map (fun m => m.description) = values) := by
  have hcand0 : ∀ base : String, suggestCandidateName base 0 = base ++ "Values" := by
    intro base
    simp [suggestCandidateName]
  have hcand1 : ∀ base : String, suggestCandidateName base 1 = base ++ "Values" ++ "2" := by
    intro base
    have h2 : toString (1 + 1 : Nat) = "2" := by decide
    simp [suggestCandidateName, h2]
  refine ⟨?_, ?_, ?_⟩
  · intro c a existing hc
    rw [suggest_enum_name]
    rw [show existing.length + 1 = Nat.succ existing.length from rfl]
    rw [findFirstFreeName, hcand0, hc]
    simp
  · intro c a existing hc0 hc1
    have hlen : ∃ m, existing.length = Nat.succ m := by
      rcases existing with _ | ⟨x, rest⟩
      · simp [List.contains] at hc0
      · exact ⟨rest.length, rfl⟩
    rcases hlen with ⟨m, hm⟩
    rw [suggest_enum_name]
    rw [show existing.length + 1 = Nat.succ existing.length from rfl]
    rw [findFirstFreeName, hcand0, hc0]
    simp only [if_true]
    rw [hm, findFirstFreeName, hcand1, hc1]
    simp
  · intro files tf name values h
    unfold ensure_enum_definition
    rcases hfind : assocFind? files tf with _ | d
    · refine ⟨{ classes := none, slots := none, enums := some [(name, mkEnumDef name values)] },
        ?_, ?_, mkEnumDef_descriptions name values⟩
      · show assocFind? (files ++
          [(tf, { classes := none, slots := none,
                  enums := some [(name, mkEnumDef name values)] })]) tf = some _
        rw [assocFind?_append_of_none hfind]
        exact assocFind?_cons_self _ _ _
      · exact assocFind?_cons_self _ _ _
    · have hkey := h d hfind
      simp only [hkey, Bool.false_eq_true, if_false]
      refine ⟨{ classes := d.classes, slots := d.slots,
                enums := some (d.enums.getD [] ++ [(name, mkEnumDef name values)]) },
        updateAt_find hfind _, ?_, mkEnumDef_descriptions name values⟩
      show assocFind? (d.enums.getD [] ++ [(name, mkEnumDef name values)]) name
        = some (mkEnumDef name values)
      rw [assocFind?_append_of_none (assocHasKey_false_find_none hkey)]
      exact assocFind?_cons_self _ _ _

/-- C5 amended claim witness: with class `Demographics`, attribute `age`
and the name `DemographicsAgeValues` already taken, the suffixed name
`DemographicsAgeValues2` is produced. -/
theorem c5_enum_naming_amended_witness :
    suggest_enum_name "Demographics" "age" ["DemographicsAgeValues"]
      = suggestEnumBase "Demographics" "age" ++ "Values" ++ "2" :=
  c5_enum_naming_amended.2.1 "Demographics" "age" ["DemographicsAgeValues"]
    (by decide) (by decide)

/-! ## Claim C6 -/

theorem canonSet_ne_nil_of_mem {x : String} {xs : List String} (h : x ∈ xs) :
    canonSet xs ≠ [] := by
  intro hnil
  rw [canonSet_eq_nil_iff] at hnil
  subst hnil
  exact (List.not_mem_nil x) h

/-- C6: boolean resolution of the enum resolver.  With
`boolean_rule=strict`, any field whose raw values string parses to exactly
the normalized token set `{true, false}` resolves to the range
`"boolean"`; with `boolean_rule=normalize` the boolean decision holds iff
the token set is non-empty and contained in
`{true, false, yes, no, y, n, 1, 0}`; with `boolean_rule=none` it never
holds. -/
theorem c6_boolean_rules :
    (∀ (enumStrategy : String) (field : FieldInfo) (base_range cls tf : String)
        (files : YamlFiles) (catalog : List EnumEntry) (names : List String),
        canonSet ((parse_values_column field.values).map normalize_value_token)
            = canonSet ["true", "false"] →
        (determine_attribute_range enumStrategy "strict" field base_range cls tf
            files catalog names).range = "boolean")
      ∧ (∀ values : List String,
          is_boolean_values values "normalize" = true
            ↔ values ≠ []
                ∧ ∀ v ∈ values,
                    normalize_value_token v ∈ ["true", "false", "yes", "no", "y", "n", "1", "0"])
      ∧ (∀ values : List String, is_boolean_values values "none" = false) := by
  refine ⟨?_, ?_, ?_⟩
  · intro enumStrategy field base_range cls tf files catalog names hset
    have hbool : is_boolean_values (parse_values_column field.values) "strict" = true := by
      simp only [is_boolean_values, if_pos rfl]
      exact decide_eq_true_iff.mpr hset
    have hvals : parse_values_column field.values ≠ [] := by
      intro hnil
      rw [hnil] at hset
      have : ("true" : String) ∈ canonSet (List.map normalize_value_token []) := by
        rw [hset]
        exact mem_canonSet.mpr (by simp)
      simp only [List.map_nil] at this
      exact canonSet_ne_nil_of_mem (mem_canonSet.mp this) rfl
    unfold determine_attribute_range
    rw [if_neg hvals, if_pos hbool]
  · intro values
    simp only [is_boolean_values]
    rw [if_neg (by decide : ¬ ("normalize" = "strict"))]
    simp only [if_true]
    rw [Bool.and_eq_true]
    constructor
    · rintro ⟨hsub, hne⟩
      constructor
      · intro hnil
        subst hnil
        exact absurd hne (by decide)
      · intro v hv
        have hmem : normalize_value_token v ∈ canonSet (values.map normalize_value_token) :=
          mem_canonSet.mpr (List.mem_map.mpr ⟨v, hv, rfl⟩)
        have := List.all_eq_true.mp hsub _ hmem
        simpa [List.contains, List.elem_iff] using this
    · rintro ⟨hne, hall⟩
      constructor
      · apply List.all_eq_true.mpr
        intro x hx
        rcases List.mem_map.mp (mem_canonSet.mp hx) with ⟨v, hv, hxv⟩
        subst hxv
        simpa [List.contains, List.elem_iff] using hall v hv
      · rcases values with _ | ⟨v, rest⟩
        · exact absurd rfl hne
        · have : normalize_value_token v ∈ canonSet ((v :: rest).map normalize_value_token) :=
            mem_canonSet.mpr (by simp)
          simp only [Bool.not_eq_true']
          rw [List.isEmpty_eq_false_iff_exists_mem]
          exact ⟨_, this⟩
  · intro values
    simp [is_boolean_values]

/-- C6 witness: the field with raw values `"true;false"` resolves to range
`"boolean"` under `boolean_rule=strict`. -/
theorem c6_boolean_rules_witness :
    (determine_attribute_range "reuse-first" "strict"
        ⟨"isSmoker", "Smoking flag", "true;false"⟩ "string" "Demographics"
        "/m/clinical/assessments/demographics.yaml" [] [] []).range = "boolean" :=
  c6_boolean_rules.1 "reuse-first" ⟨"isSmoker", "Smoking flag", "true;false"⟩
    "string" "Demographics" "/m/clinical/assessments/demographics.yaml" [] [] [] (by decide)

/-! ## Claim C4 -/

theorem find?_append_none {α : Type} {p : α → Bool} {l1 : List α}
    (h : l1.find? p = none) (l2 : List α) : (l1 ++ l2).find? p = l2.find? p := by
  induction l1 with
  | nil => rfl
  | cons x rest ih =>
    simp only [List.find?] at h ⊢
    rcases hx : p x with _ | _
    · rw [hx] at h
      simp only [List.cons_append, List.find?, hx]
      exact ih h
    · rw [hx] at h
      simp at h

theorem parse_values_filter_self (s : String) :
    (parse_values_column s).filter (fun v => v ≠ "") = parse_values_column s :=
  filter_ne_empty_self _ (fun _ hx => mem_parse_values_ne_empty hx)

/-- Creation case of `determine_attribute_range` under
`enum_strategy=reuse-first`: non-empty values, no boolean hit, no catalog
match. -/
theorem determine_reuse_first_create (booleanRule : String) (f : FieldInfo)
    (b c tf : String) (files : YamlFiles) (catalog : List EnumEntry) (names : List String)
    (h1 : parse_values_column f.values ≠ [])
    (hb : is_boolean_values (parse_values_column f.values) booleanRule = false)
    (hfind : find_matching_enum (parse_values_column f.values) catalog = none) :
    determine_attribute_range "reuse-first" booleanRule f b c tf files catalog names =
      ⟨suggest_enum_name c (to_camel_case f.field) names, "create",
        some ⟨suggest_enum_name c (to_camel_case f.field) names, tf,
          canonSet ((parse_values_column f.values).map normalize_value_token),
          parse_values_column f.values⟩,
        ensure_enum_definition files tf (suggest_enum_name c (to_camel_case f.field) names)
          (parse_values_column f.values),
        catalog ++ [⟨suggest_enum_name c (to_camel_case f.field) names, tf,
          canonSet ((parse_values_column f.values).map normalize_value_token),
          parse_values_column f.values⟩],
        addStr names (suggest_enum_name c (to_camel_case f.field) names)⟩ := by
  simp only [determine_attribute_range, parse_values_filter_self]
  rw [if_neg h1, hb]
  simp only [Bool.false_eq_true, if_false]
  rw [if_neg (by decide : ¬ (("reuse-first" : String) = "keep-string")), if_neg h1]
  simp only [if_true]
  rw [hfind]

/-- Reuse case of `determine_attribute_range` under
`enum_strategy=reuse-first`. -/
theorem determine_reuse_first_reuse (booleanRule : String) (f : FieldInfo)
    (b c tf : String) (files : YamlFiles) (catalog : List EnumEntry) (names : List String)
    (m : EnumEntry)
    (h1 : parse_values_column f.values ≠ [])
    (hb : is_boolean_values (parse_values_column f.values) booleanRule = false)
    (hfind : find_matching_enum (parse_values_column f.values) catalog = some m) :
    determine_attribute_range "reuse-first" booleanRule f b c tf files catalog names =
      ⟨m.name, "reuse", some m, files, catalog, names⟩ := by
  simp only [determine_attribute_range, parse_values_filter_self]
  rw [if_neg h1, hb]
  simp only [Bool.false_eq_true, if_false]
  rw [if_neg (by decide : ¬ (("reuse-first" : String) = "keep-string")), if_neg h1]
  simp only [if_true]
  rw [hfind]

theorem find_matching_enum_none_of_no_match {values : List String} {catalog : List EnumEntry}
    (h : ∀ e ∈ catalog, e.value_set ≠ canonSet (values.map normalize_value_token)) :
    find_matching_enum values catalog = none := by
  simp only [find_matching_enum]
  split
  · rfl
  · exact List.find?_eq_none.mpr (fun e he => by
      simp only [decide_eq_true_eq]
      exact h e he)

/-- C4: under `enum_strategy=reuse-first`, when a first field creates an
enum (its normalized value set matches no existing catalog entry), any
later field of the same run whose value list has the same normalized value
set — regardless of token order, spacing or casing — resolves by reusing
exactly that enum: the catalog is extended in memory at creation time and
`find_matching_enum` then returns the created entry. -/
theorem c4_reuse_first_second_field_reuses (booleanRule : String) (f1 f2 : FieldInfo)
    (b1 b2 c1 c2 tf1 tf2 : String) (files : YamlFiles) (catalog : List EnumEntry)
    (names : List String)
    (h1 : parse_values_column f1.values ≠ [])
    (h2 : parse_values_column f2.values ≠ [])
    (hb1 : is_boolean_values (parse_values_column f1.values) booleanRule = false)
    (hb2 : is_boolean_values (parse_values_column f2.values) booleanRule = false)
    (hset : canonSet ((parse_values_column f1.values).map normalize_value_token)
        = canonSet ((parse_values_column f2.values).map normalize_value_token))
    (hcat : ∀ e ∈ catalog,
        e.value_set ≠ canonSet ((parse_values_column f1.values).map normalize_value_token)) :
    (determine_attribute_range "reuse-first" booleanRule f1 b1 c1 tf1
        files catalog names).enumAction = "create"
      ∧ (determine_attribute_range "reuse-first" booleanRule f2 b2 c2 tf2
          (determine_attribute_range "reuse-first" booleanRule f1 b1 c1 tf1
            files catalog names).yamlFiles
          (determine_attribute_range "reuse-first" booleanRule f1 b1 c1 tf1
            files catalog names).enumCatalog
          (determine_attribute_range "reuse-first" booleanRule f1 b1 c1 tf1
            files catalog names).existingEnumNames).enumAction = "reuse"
      ∧ (determine_attribute_range "reuse-first" booleanRule f2 b2 c2 tf2
          (determine_attribute_range "reuse-first" booleanRule f1 b1 c1 tf1
            files catalog names).yamlFiles
          (determine_attribute_range "reuse-first" booleanRule f1 b1 c1 tf1
            files catalog names).enumCatalog
          (determine_attribute_range "reuse-first" booleanRule f1 b1 c1 tf1
            files catalog names).existingEnumNames).range
        = (determine_attribute_range "reuse-first" booleanRule f1 b1 c1 tf1
            files catalog names).range := by
  have hfind1 : find_matching_enum (parse_values_column f1.values) catalog = none :=
    find_matching_enum_none_of_no_match hcat
  have hr1 := determine_reuse_first_create booleanRule f1 b1 c1 tf1 files catalog names
    h1 hb1 hfind1
  set en := suggest_enum_name c1 (to_camel_case f1.field) names with hen
  set entry1 : EnumEntry :=
    ⟨en, tf1, canonSet ((parse_values_column f1.values).map normalize_value_token),
      parse_values_column f1.values⟩ with hentry1
  have htarget2 : canonSet ((parse_values_column f2.values).map normalize_value_token) ≠ [] := by
    intro hnil
    rw [canonSet_eq_nil_iff, List.map_eq_nil_iff] at hnil
    exact h2 hnil
  have hfind2 : find_matching_enum (parse_values_column f2.values) (catalog ++ [entry1])
      = some entry1 := by
    simp only [find_matching_enum]
    rw [if_neg htarget2]
    rw [find?_append_none (List.find?_eq_none.mpr (fun e he => by
      simp only [decide_eq_true_eq]
      rw [← hset]
      exact hcat e he))]
    simp only [List.find?]
    rw [show (decide (entry1.value_set
        = canonSet ((parse_values_column f2.values).map normalize_value_token))) = true from by
      simp only [hentry1, decide_eq_true_eq]
      exact hset]
  have hr2 := determine_reuse_first_reuse booleanRule f2 b2 c2 tf2
    (ensure_enum_definition files tf1 en (parse_values_column f1.values))
    (catalog ++ [entry1]) (addStr names en) entry1 h2 hb2 hfind2
  rw [hr1]
  refine ⟨rfl, ?_, ?_⟩
  · rw [hr2]
  · rw [hr2]

/-- C4 witness: with raw values `"Yes,No"` and `"no, yes"` under
`boolean_rule=strict`, the second field reuses the enum created for the
first. -/
theorem c4_reuse_first_second_field_reuses_witness :
    (determine_attribute_range "reuse-first" "strict"
        ⟨"smokingStatus", "", "Yes,No"⟩ "string" "Demographics" "/m/a.yaml" [] [] []).enumAction
        = "create"
      ∧ (determine_attribute_range "reuse-first" "strict"
          ⟨"drinkAlcohol", "", "no, yes"⟩ "string" "Demographics" "/m/a.yaml"
          (determine_attribute_range "reuse-first" "strict"
            ⟨"smokingStatus", "", "Yes,No"⟩ "string" "Demographics" "/m/a.yaml" [] [] []).yamlFiles
          (determine_attribute_range "reuse-first" "strict"
            ⟨"smokingStatus", "", "Yes,No"⟩ "string" "Demographics" "/m/a.yaml" [] [] []).enumCatalog
          (determine_attribute_range "reuse-first" "strict"
            ⟨"smokingStatus", "", "Yes,No"⟩ "string" "Demographics" "/m/a.yaml" [] [] []).existingEnumNames).enumAction
        = "reuse"
      ∧ (determine_attribute_range "reuse-first" "strict"
          ⟨"drinkAlcohol", "", "no, yes"⟩ "string" "Demographics" "/m/a.yaml"
          (determine_attribute_range "reuse-first" "strict"
            ⟨"smokingStatus", "", "Yes,No"⟩ "string" "Demographics" "/m/a.yaml" [] [] []).yamlFiles
          (determine_attribute_range "reuse-first" "strict"
            ⟨"smokingStatus", "", "Yes,No"⟩ "string" "Demographics" "/m/a.yaml" [] [] []).enumCatalog
          (determine_attribute_range "reuse-first" "strict"
            ⟨"smokingStatus", "", "Yes,No"⟩ "string" "Demographics" "/m/a.yaml" [] [] []).existingEnumNames).range
        = (determine_attribute_range "reuse-first" "strict"
            ⟨"smokingStatus", "", "Yes,No"⟩ "string" "Demographics" "/m/a.yaml" [] [] []).range :=
  c4_reuse_first_second_field_reuses "strict"
    ⟨"smokingStatus", "", "Yes,No"⟩ ⟨"drinkAlcohol", "", "no, yes"⟩
    "string" "string" "Demographics" "Demographics" "/m/a.yaml" "/m/a.yaml" [] [] []
    (by decide) (by decide) (by decide) (by decide) (by decide) (by intro e he; simp at he)

/-! ## Claim C9 -/

theorem getD_of_all_empty (row : List String) (i : Nat)
    (h : row.all (fun c => c = "") = true) : row.getD i "" = "" := by
  induction row generalizing i with
  | nil => simp [List.getD]
  | cons c cs ih =>
    simp only [List.all_cons, Bool.and_eq_true, decide_eq_true_eq] at h
    cases i with
    | zero => simpa using h.1
    | succ n =>
      rw [List.getD_cons_succ]
      exact ih n h.2

theorem headD_eq_getD_zero (row : List String) : row.headD "" = row.getD 0 "" := by
  cases row <;> rfl

theorem getD_one_lt_length {row : List String} (h : row.getD 1 "" ≠ "") : 1 < row.length := by
  by_contra hlen
  push_neg at hlen
  exact h (List.getD_eq_default _ _ hlen)

theorem ddRows_source_eq_spec :
    ∀ (rows : List (List String)) (cur : Option String) (acc : List (String × List FieldInfo)),
      ddSourceRows rows cur acc = ddSpecRows rows cur acc := by
  intro rows
  induction rows with
  | nil => intro cur acc; rfl
  | cons row rest ih =>
    intro cur acc
    simp only [ddSourceRows, ddSpecRows, headD_eq_getD_zero]
    by_cases hempty : row.all (fun c => c = "") = true
    · have h0 : row.getD 0 "" = "" := getD_of_all_empty row 0 hempty
      have h1 : row.getD 1 "" = "" := getD_of_all_empty row 1 hempty
      have hps : pyStrip "" = "" := rfl
      cases cur with
      | none =>
        simp only [hempty, if_true, h0, h1, hps, ne_eq, not_true_eq_false, if_false, and_false,
          ite_self]
        exact ih none acc
      | some cv =>
        simp only [hempty, if_true, h0, h1, hps, ne_eq, not_true_eq_false, if_false, and_false,
          ite_self]
        exact ih (some cv) acc
    · simp only [hempty, Bool.false_eq_true, if_false]
      by_cases hv : pyStrip (row.getD 0 "") = ""
      · cases cur with
        | none =>
          simp only [hv, ne_eq, not_true_eq_false, if_false, false_and, ite_self]
          exact ih none acc
        | some cv =>
          by_cases hf : row.getD 1 "" = ""
          · simp only [hv, hf, ne_eq, not_true_eq_false, if_false, false_and, and_false,
              ite_self]
            exact ih (some cv) acc
          · have hlen : 1 < row.length := getD_one_lt_length hf
            simp only [hv, hf, hlen, ne_eq, not_true_eq_false, not_false_eq_true, if_false,
              false_and, and_true, true_and, if_true, ite_self]
            exact ih _ _
      · by_cases hk : assocHasKey acc (pyStrip (row.getD 0 "")) = true
        · by_cases hf : row.getD 1 "" = ""
          · simp only [hv, hk, hf, ne_eq, not_false_eq_true, not_true_eq_false, true_and,
              and_false, if_false, if_true, ite_self]
            exact ih _ _
          · have hlen : 1 < row.length := getD_one_lt_length hf
            simp only [hv, hk, hf, hlen, ne_eq, not_false_eq_true, not_true_eq_false, true_and,
              and_false, and_true, if_false, if_true, ite_self]
            exact ih _ _
        · by_cases hf : row.getD 1 "" = ""
          · simp only [hv, hk, hf, ne_eq, not_false_eq_true, not_true_eq_false,
              Bool.not_eq_true, true_and, and_false, if_false, if_true, ite_self]
            exact ih _ _
          · have hlen : 1 < row.length := getD_one_lt_length hf
            simp only [hv, hk, hf, hlen, ne_eq, not_false_eq_true, not_true_eq_false,
              Bool.not_eq_true, true_and, and_true, if_false, if_true, ite_self]
            exact ih _ _

/-- C9: the dictionary parser satisfies the claimed contract — it ignores
the header row entirely, a row whose column 0 has content starts a new
current-view group whose key persists even with no field rows, blank
column 0 rows continue the current view, a row contributes a field iff a
current view exists and its column 1 is non-empty, and missing columns 2
and 3 default to the empty string (`ddSpecParse` is that contract written
out directly; an empty file parses to the empty mapping). -/
theorem c9_parser_contract :
    (∀ (header : List String) (body : List (List String)),
        parse_data_dictionary (header :: body) = ddSpecParse body)
      ∧ parse_data_dictionary [] = [] := by
  refine ⟨?_, rfl⟩
  intro header body
  exact ddRows_source_eq_spec body none []

/-! ## Claim C8 -/

/-- C8: the run signature is a deterministic function of exactly the six
semantically relevant options (mode, AI provider, enum strategy, boolean
rule, AI-review flag, absolute proposal path) — two argument records
agreeing on those options hash identically whatever the remaining flags —
and, without an explicit reset, a prior checkpoint of the same mode whose
stored signature differs is a fatal configuration error raised before any
file write, whatever the rest of the program would have written. -/
theorem c8_signature_gate :
    (∀ (sha256hex : String → String) (cwd : String) (a b : Args) (pp : String),
        a.mode = b.mode → a.ai_provider = b.ai_provider → a.enum_strategy = b.enum_strategy →
        a.boolean_rule = b.boolean_rule → a.use_gemini_review = b.use_gemini_review →
        compute_args_signature sha256hex cwd a pp = compute_args_signature sha256hex cwd b pp)
      ∧ (∀ (sha256hex : String → String) (cwd : String) (args : Args)
          (root : List (String × ModeCheckpoint)) (ckExists : Bool)
          (rest : String → List String) (mc : ModeCheckpoint) (s : String),
          args.reset_checkpoint = false →
          assocFind? root args.mode = some mc →
          mc.args_signature = some s →
          s ≠ "" →
          s ≠ compute_args_signature sha256hex cwd args args.proposal_path →
          mainRun sha256hex cwd args root ckExists rest
            = (.fatalConfigError
                "Checkpoint arguments differ; run with --reset-checkpoint to continue.", [])) := by
  constructor
  · intro sha256hex cwd a b pp h1 h2 h3 h4 h5
    unfold compute_args_signature
    rw [h1, h2, h3, h4, h5]
  · intro sha256hex cwd args root ckExists rest mc s hreset hfind hsig hne hdiff
    have hgate : checkpointSignatureGate sha256hex cwd args root
        = .fatalConfigError
          "Checkpoint arguments differ; run with --reset-checkpoint to continue." := by
      simp only [checkpointSignatureGate, hreset, Bool.false_eq_true, if_false, hfind,
        Option.getD_some, hsig]
      rw [if_pos ⟨hne, hdiff⟩]
    simp only [mainRun, hgate, hreset, Bool.false_eq_true, false_and, if_false]

/-- C8 witness: a stored signature `"oldsig"` differing from the computed
one is fatal and produces no writes at all, even with a rest-of-program
that would write. -/
theorem c8_signature_gate_witness :
    mainRun (fun _ => "newsig") "/w"
      { mode := "apply", ai_provider := "gemini", enum_strategy := "reuse-first",
        boolean_rule := "strict", use_gemini_review := false,
        proposal_path := "downloads/model_update_proposal.csv",
        checkpoint_path := "checkpoints/update_model_from_dd_checkpoint.json",
        resume := true, reset_checkpoint := false, pause_after := 0,
        modules_dir := "/w/modules", dry_run := false, gemini_timeout := 60,
        codex_timeout := 60, use_codex_fallback := false, auto_accept_gemini := false,
        confirm_attribute_changes := false }
      [("apply", { completed_keys := ["k1"], processed_count := 1,
                   args_signature := some "oldsig" })]
      true (fun sig => ["write:" ++ sig])
      = (.fatalConfigError
          "Checkpoint arguments differ; run with --reset-checkpoint to continue.", []) :=
  c8_signature_gate.2 (fun _ => "newsig") "/w" _ _ true (fun sig => ["write:" ++ sig])
    { completed_keys := ["k1"], processed_count := 1, args_signature := some "oldsig" }
    "oldsig" rfl (by decide) rfl (by decide) (by decide)

/-! ## Claim C10 -/

theorem splitOnChars_sepFree_append (p : Char → Bool) :
    ∀ (xs : List Char), (∀ c ∈ xs, p c = false) →
      ∀ (r cur : List Char), splitOnChars p (xs ++ r) cur = splitOnChars p r (xs.reverse ++ cur) := by
  intro xs
  induction xs with
  | nil => intro _ r cur; simp
  | cons c cs ih =>
    intro h r cur
    have hc : p c = false := h c (List.mem_cons_self c cs)
    simp only [List.cons_append, splitOnChars, hc, Bool.false_eq_true, if_false]
    show splitOnChars p (cs ++ r) (c :: cur) = splitOnChars p r ((c :: cs).reverse ++ cur)
    rw [ih (fun x hx => h x (List.mem_cons_of_mem c hx)) r (c :: cur)]
    simp

theorem splitOnChars_sepFree (p : Char → Bool) (xs : List Char)
    (h : ∀ c ∈ xs, p c = false) (cur : List Char) :
    splitOnChars p xs cur = [cur.reverse ++ xs] := by
  have := splitOnChars_sepFree_append p xs h [] cur
  rw [List.append_nil] at this
  rw [this]
  simp [splitOnChars]

theorem splitOnChars_elements (p : Char → Bool) :
    ∀ (cs cur : List Char), (∀ c ∈ cur, p c = false) →
      ∀ t ∈ splitOnChars p cs cur, ∀ c ∈ t, p c = false := by
  intro cs
  induction cs with
  | nil =>
    intro cur hcur t ht c hc
    simp only [splitOnChars, List.mem_singleton] at ht
    subst ht
    exact hcur c (List.mem_reverse.mp hc)
  | cons x rest ih =>
    intro cur hcur t ht c hc
    simp only [splitOnChars] at ht
    rcases hx : p x with _ | _
    · rw [hx] at ht
      simp only [Bool.false_eq_true, if_false] at ht
      refine ih (x :: cur) ?_ t ht c hc
      intro d hd
      rcases List.mem_cons.mp hd with hdx | hdc
      · subst hdx; exact hx
      · exact hcur d hdc
    · rw [hx] at ht
      simp only [if_true] at ht
      rcases List.mem_cons.mp ht with h1 | h2
      · subst h1
        exact hcur c (List.mem_reverse.mp hc)
      · exact ih [] (by intro d hd; exact absurd hd (List.not_mem_nil d)) t h2 c hc

theorem splitAbs_elements (s : String) :
    ∀ t ∈ splitAbs s, t ≠ "" ∧ ∀ c ∈ t.toList, isSlashChar c = false := by
  intro t ht
  unfold splitAbs splitSlash pySplit at ht
  rcases List.mem_filter.mp ht with ⟨hmem, hne⟩
  refine ⟨by simpa using hne, ?_⟩
  rcases List.mem_map.mp hmem with ⟨cs, hcs, hmk⟩
  subst hmk
  intro c hc
  exact splitOnChars_elements isSlashChar s.toList [] (by intro d hd; cases hd) cs hcs c hc

theorem mem_commonPrefixComps_left :
    ∀ (a b : List String) (x : String), x ∈ commonPrefixComps a b → x ∈ a := by
  intro a
  induction a with
  | nil => intro b x hx; cases b <;> simp [commonPrefixComps] at hx
  | cons y as ih =>
    intro b x hx
    cases b with
    | nil => simp [commonPrefixComps] at hx
    | cons z bs =>
      simp only [commonPrefixComps] at hx
      by_cases hyz : y = z
      · rw [if_pos hyz] at hx
        rcases List.mem_cons.mp hx with h1 | h2
        · subst h1; exact List.mem_cons_self _ _
        · exact List.mem_cons_of_mem _ (ih bs x h2)
      · rw [if_neg hyz] at hx
        exact absurd hx (List.not_mem_nil x)

theorem commonPrefixComps_eq_left (a : List String) :
    ∀ b, commonPrefixComps a b = a → ∃ rest, a ++ rest = b := by
  induction a with
  | nil => intro b _; exact ⟨b, rfl⟩
  | cons x as ih =>
    intro b h
    cases b with
    | nil => simp [commonPrefixComps] at h
    | cons y bs =>
      simp only [commonPrefixComps] at h
      by_cases hxy : x = y
      · rw [if_pos hxy] at h
        have h2 := List.tail_eq_of_cons_eq h
        rcases ih bs h2 with ⟨rest, hrest⟩
        exact ⟨rest, by rw [List.cons_append, hrest, hxy]⟩
      · rw [if_neg hxy] at h
        exact absurd h.symm (List.cons_ne_nil x as)

theorem joinWith_cons_cons (sep : String) (x y : String) (rest : List String) :
    joinWith sep (x :: y :: rest) = x ++ sep ++ joinWith sep (y :: rest) := rfl

theorem splitJoinAux :
    ∀ (cs : List String) (x : String) (cur : List Char),
      (∀ c ∈ x.toList, isSlashChar c = false) →
      (∀ t ∈ cs, ∀ c ∈ t.toList, isSlashChar c = false) →
      splitOnChars isSlashChar ((joinWith "/" (x :: cs)).toList) cur
        = (cur.reverse ++ x.toList) :: cs.map String.toList := by
  intro cs
  induction cs with
  | nil =>
    intro x cur hx _
    rw [show joinWith "/" [x] = x from rfl]
    rw [splitOnChars_sepFree isSlashChar x.toList hx cur]
    rfl
  | cons y rest ih =>
    intro x cur hx hcs
    rw [joinWith_cons_cons]
    have htl : (x ++ "/" ++ joinWith "/" (y :: rest)).toList
        = x.toList ++ ('/' :: (joinWith "/" (y :: rest)).toList) := by
      show (x ++ "/" ++ joinWith "/" (y :: rest)).data
        = x.data ++ ('/' :: (joinWith "/" (y :: rest)).data)
      rw [String.data_append, String.data_append]
      simp
    rw [htl]
    rw [splitOnChars_sepFree_append isSlashChar x.toList hx]
    simp only [splitOnChars, show isSlashChar '/' = true from rfl, if_true]
    rw [ih y [] (hcs y (List.mem_cons_self y rest))
      (fun t ht => hcs t (List.mem_cons_of_mem y ht))]
    simp

theorem splitAbs_renderAbs (cs : List String)
    (hclean : ∀ t ∈ cs, t ≠ "" ∧ ∀ c ∈ t.toList, isSlashChar c = false) :
    splitAbs (renderAbs cs) = cs := by
  cases cs with
  | nil => decide
  | cons x rest =>
    unfold splitAbs splitSlash pySplit renderAbs
    have htl : (("/" : String) ++ joinWith "/" (x :: rest)).toList
        = '/' :: (joinWith "/" (x :: rest)).toList := by
      show (("/" : String) ++ joinWith "/" (x :: rest)).data
        = '/' :: (joinWith "/" (x :: rest)).data
      rw [String.data_append]
      rfl
    rw [htl]
    simp only [splitOnChars, show isSlashChar '/' = true from rfl, if_true]
    rw [splitJoinAux rest x [] (hclean x (List.mem_cons_self x rest)).2
      (fun t ht => (hclean t (List.mem_cons_of_mem x ht)).2)]
    simp only [List.reverse_nil, List.nil_append, List.map_cons, List.map_map]
    have hmk : ∀ t : String, String.mk t.toList = t := fun _ => rfl
    rw [show (String.mk ∘ String.toList) = fun t => t from funext hmk]
    simp only [List.map_id']
    rw [List.filter_cons]
    simp only [show (decide (("" : String) ≠ "")) = false from rfl, if_false]
    rw [show String.mk [] = ("" : String) from rfl]
    simp only [Bool.false_eq_true, if_false, hmk]
    apply List.filter_eq_self.mpr
    intro a ha
    exact decide_eq_true_iff.mpr ((hclean a ha).1)

/-- C10: for every modules directory, fallback file and suggested target
string (absolute paths and `..` traversals included), `resolve_target_file`
returns either the fallback file or a path whose absolute component list
extends that of the modules directory — an oracle-suggested path escaping
the modules directory is never used as a write target.  The second
conjunct runs the sanitiser on a concrete `../..` escape. -/
theorem c10_resolve_target_file_safe :
    (∀ (cwd modules_dir : String) (suggested : Option String) (fallback : String),
        resolve_target_file cwd modules_dir suggested fallback = fallback
          ∨ ∃ rest, splitAbs (abspath cwd modules_dir) ++ rest
              = splitAbs (resolve_target_file cwd modules_dir suggested fallback))
      ∧ resolve_target_file "/w" "/w/modules" (some "../../etc/shadow")
          "/w/modules/clinical/assessments/other_generated_assessments.yaml"
        = "/w/modules/clinical/assessments/other_generated_assessments.yaml" := by
  constructor
  · intro cwd md suggested fb
    cases suggested with
    | none => left; rfl
    | some s =>
      by_cases hs : s = ""
      · left
        simp [resolve_target_file, hs]
      · simp only [resolve_target_file, hs, if_false]
        by_cases hguard : renderAbs (commonPrefixComps (splitAbs (abspath cwd md))
            (splitAbs (if strStartsWith (pyStrip s) "/" then abspath cwd (pyStrip s)
              else abspath cwd (pathJoin (abspath cwd md) (pyStrip s)))))
            = abspath cwd md
      
        · right
          rw [if_neg (fun hne => hne hguard)]
          have hcommon_clean : ∀ t ∈ commonPrefixComps (splitAbs (abspath cwd md))
              (splitAbs (if strStartsWith (pyStrip s) "/" then abspath cwd (pyStrip s)
                else abspath cwd (pathJoin (abspath cwd md) (pyStrip s)))),
              t ≠ "" ∧ ∀ c ∈ t.toList, isSlashChar c = false :=
            fun t ht => splitAbs_elements (abspath cwd md) t
              (mem_commonPrefixComps_left _ _ t ht)
          have hround := splitAbs_renderAbs _ hcommon_clean
          rw [hguard] at hround
          exact commonPrefixComps_eq_left _ _ hround.symm
        · left
          rw [if_pos hguard]
  · decide

/-! ## Claims C7 and C2: invariants of the assess loop -/

theorem assessFieldStep_frame (args : Args) (sig : String) (ctx : ViewCtx)
    (st : AssessState) (f : FieldInfo) :
    (assessFieldStep args sig ctx st f).yamlFiles = st.yamlFiles
      ∧ (assessFieldStep args sig ctx st f).schemaWrites = st.schemaWrites
      ∧ (assessFieldStep args sig ctx st f).viewTrace = st.viewTrace := by
  simp only [assessFieldStep, persistCheckpointState]
  repeat' split
  all_goals exact ⟨rfl, rfl, rfl⟩

theorem fieldFold_frame (args : Args) (sig : String) (ctx : ViewCtx) :
    ∀ (fields : List FieldInfo) (st : AssessState),
      (fields.foldl (assessFieldStep args sig ctx) st).yamlFiles = st.yamlFiles
        ∧ (fields.foldl (assessFieldStep args sig ctx) st).schemaWrites = st.schemaWrites
        ∧ (fields.foldl (assessFieldStep args sig ctx) st).viewTrace = st.viewTrace := by
  intro fields
  induction fields with
  | nil => intro st; exact ⟨rfl, rfl, rfl⟩
  | cons f rest ih =>
    intro st
    rcases assessFieldStep_frame args sig ctx st f with ⟨h1, h2, h3⟩
    rcases ih (assessFieldStep args sig ctx st f) with ⟨g1, g2, g3⟩
    exact ⟨g1.trans h1, g2.trans h2, g3.trans h3⟩

theorem assessViewStep_frame (ratio : String → String → ℚ) (cwd : String) (args : Args)
    (sig : String) (vtc vtf : List (String × String)) (dd : List (String × List FieldInfo))
    (st : AssessState) (v : String) :
    (assessViewStep ratio cwd args sig vtc vtf dd st v).yamlFiles = st.yamlFiles
      ∧ (assessViewStep ratio cwd args sig vtc vtf dd st v).schemaWrites = st.schemaWrites := by
  simp only [assessViewStep]
  split
  · exact ⟨rfl, rfl⟩
  · split
    · exact ⟨rfl, rfl⟩
    · rcases fieldFold_frame args sig _ ((assocFind? dd v).getD []) _ with ⟨h1, h2, -⟩
      exact ⟨h1, h2⟩

theorem viewFold_frame (ratio : String → String → ℚ) (cwd : String) (args : Args)
    (sig : String) (vtc vtf : List (String × String)) (dd : List (String × List FieldInfo)) :
    ∀ (views : List String) (st : AssessState),
      ((views.foldl (assessViewStep ratio cwd args sig vtc vtf dd) st)).yamlFiles = st.yamlFiles
        ∧ ((views.foldl (assessViewStep ratio cwd args sig vtc vtf dd) st)).schemaWrites
            = st.schemaWrites := by
  intro views
  induction views with
  | nil => intro st; exact ⟨rfl, rfl⟩
  | cons v rest ih =>
    intro st
    rcases assessViewStep_frame ratio cwd args sig vtc vtf dd st v with ⟨h1, h2⟩
    rcases ih (assessViewStep ratio cwd args sig vtc vtf dd st v) with ⟨g1, g2⟩
    exact ⟨g1.trans h1, g2.trans h2⟩

/-- C7: assess mode never mutates the loaded schema store and never
persists a schema file; its outputs are confined to proposal rows and
checkpoint snapshots (the only write channels of the returned state). -/
theorem c7_assess_mode_frame (ratio : String → String → ℚ) (cwd : String) (args : Args)
    (vtc vtf : List (String × String)) (dd : List (String × List FieldInfo))
    (yaml_files : YamlFiles) (ck : List String) (cp : Nat) (epk : List String) (sig : String) :
    (run_assess_mode ratio cwd args vtc vtf dd yaml_files ck cp epk sig).yamlFiles = yaml_files
      ∧ (run_assess_mode ratio cwd args vtc vtf dd yaml_files ck cp epk sig).schemaWrites
          = [] := by
  unfold run_assess_mode
  rcases viewFold_frame ratio cwd args sig vtc vtf dd (strSort (dd.map Prod.fst)) _
    with ⟨h1, h2⟩
  exact ⟨h1, h2⟩

theorem assessViewCtx_viewName (ratio : String → String → ℚ) (cwd : String) (args : Args)
    (vtf : List (String × String)) (yamlFiles : YamlFiles) (v nv mc : String) :
    (assessViewCtx ratio cwd args vtf yamlFiles v nv mc).viewName = v := by
  simp only [assessViewCtx]
  split <;> rfl

theorem assessFieldStep_progress (args : Args) (sig : String) (ctx : ViewCtx)
    (st : AssessState) (f : FieldInfo) (h0 : args.pause_after = 0)
    (hstop : st.stopRequested = false) :
    (assessFieldStep args sig ctx st f).stopRequested = false
      ∧ (assessFieldStep args sig ctx st f).itemTrace
          = st.itemTrace ++ [(ctx.viewName, f.field)] := by
  simp only [assessFieldStep, persistCheckpointState, hstop, Bool.false_eq_true, if_false, h0,
    ne_eq, not_true_eq_false, false_and, if_false]
  repeat' split
  all_goals exact ⟨rfl, rfl⟩

theorem fieldFold_progress (args : Args) (sig : String) (ctx : ViewCtx)
    (h0 : args.pause_after = 0) :
    ∀ (fields : List FieldInfo) (st : AssessState), st.stopRequested = false →
      (fields.foldl (assessFieldStep args sig ctx) st).stopRequested = false
        ∧ (fields.foldl (assessFieldStep args sig ctx) st).itemTrace
            = st.itemTrace ++ fields.map (fun f => (ctx.viewName, f.field)) := by
  intro fields
  induction fields with
  | nil => intro st hstop; exact ⟨hstop, by simp⟩
  | cons f rest ih =>
    intro st hstop
    rcases assessFieldStep_progress args sig ctx st f h0 hstop with ⟨h1, h2⟩
    rcases ih (assessFieldStep args sig ctx st f) h1 with ⟨g1, g2⟩
    refine ⟨g1, ?_⟩
    show (List.foldl (assessFieldStep args sig ctx)
      (assessFieldStep args sig ctx st f) rest).itemTrace = _
    rw [g2, h2]
    simp

theorem assessViewStep_progress (ratio : String → String → ℚ) (cwd : String) (args : Args)
    (sig : String) (vtc vtf : List (String × String)) (dd : List (String × List FieldInfo))
    (st : AssessState) (v : String) (h0 : args.pause_after = 0)
    (hstop : st.stopRequested = false) :
    (assessViewStep ratio cwd args sig vtc vtf dd st v).stopRequested = false
      ∧ (assessViewStep ratio cwd args sig vtc vtf dd st v).viewTrace = st.viewTrace ++ [v]
      ∧ (assessViewStep ratio cwd args sig vtc vtf dd st v).itemTrace
          = st.itemTrace ++
            (if (assocFind? vtc (normalize_view_name v)).isSome then
              ((assocFind? dd v).getD []).map (fun f => (v, f.field))
            else []) := by
  simp only [assessViewStep, hstop, Bool.false_eq_true, if_false]
  rcases hfind : assocFind? vtc (normalize_view_name v) with _ | mc
  · simp [hfind]
  · simp only [hfind, Option.isSome_some, if_true]
    rcases fieldFold_progress args sig
        (assessViewCtx ratio cwd args vtf st.yamlFiles v (normalize_view_name v) mc) h0
        ((assocFind? dd v).getD [])
        { st with stopRequested := false, viewTrace := st.viewTrace ++ [v] } rfl with ⟨g1, g2⟩
    rcases fieldFold_frame args sig
        (assessViewCtx ratio cwd args vtf st.yamlFiles v (normalize_view_name v) mc)
        ((assocFind? dd v).getD [])
        { st with stopRequested := false, viewTrace := st.viewTrace ++ [v] } with ⟨-, -, g3⟩
    refine ⟨g1, g3, ?_⟩
    rw [g2]
    rw [assessViewCtx_viewName]

theorem viewFold_progress (ratio : String → String → ℚ) (cwd : String) (args : Args)
    (sig : String) (vtc vtf : List (String × String)) (dd : List (String × List FieldInfo))
    (h0 : args.pause_after = 0) :
    ∀ (views : List String) (st : AssessState), st.stopRequested = false →
      (views.foldl (assessViewStep ratio cwd args sig vtc vtf dd) st).viewTrace
          = st.viewTrace ++ views
        ∧ (views.foldl (assessViewStep ratio cwd args sig vtc vtf dd) st).itemTrace
            = st.itemTrace ++ views.flatMap (fun v =>
                if (assocFind? vtc (normalize_view_name v)).isSome then
                  ((assocFind? dd v).getD []).map (fun f => (v, f.field))
                else [])
        ∧ (views.foldl (assessViewStep ratio cwd args sig vtc vtf dd) st).stopRequested
            = false := by
  intro views
  induction views with
  | nil => intro st hstop; exact ⟨by simp, by simp, hstop⟩
  | cons v rest ih =>
    intro st hstop
    rcases assessViewStep_progress ratio cwd args sig vtc vtf dd st v h0 hstop
      with ⟨h1, h2, h3⟩
    rcases ih (assessViewStep ratio cwd args sig vtc vtf dd st v) h1 with ⟨g1, g2, g3⟩
    refine ⟨?_, ?_, g3⟩
    · show (List.foldl (assessViewStep ratio cwd args sig vtc vtf dd)
        (assessViewStep ratio cwd args sig vtc vtf dd st v) rest).viewTrace = _
      rw [g1, h2]
      simp
    · show (List.foldl (assessViewStep ratio cwd args sig vtc vtf dd)
        (assessViewStep ratio cwd args sig vtc vtf dd st v) rest).itemTrace = _
      rw [g2, h3]
      simp [List.flatMap_cons]

theorem persistCheckpointState_viewTrace (sig : String) (st : AssessState) :
    (persistCheckpointState sig st).viewTrace = st.viewTrace := rfl

theorem persistCheckpointState_itemTrace (sig : String) (st : AssessState) :
    (persistCheckpointState sig st).itemTrace = st.itemTrace := rfl

/-- C2 (amended): assess mode processes views in lexicographic sort order
with each mapped view's fields visited in file-appearance order, while
apply mode iterates views in dictionary insertion order — the order the
views first appear in the parsed data dictionaries — not sorted order. -/
theorem c2_processing_order_amended :
    (∀ (ratio : String → String → ℚ) (cwd : String) (args : Args)
        (vtc vtf : List (String × String)) (dd : List (String × List FieldInfo))
        (yf : YamlFiles) (ck : List String) (cp : Nat) (epk : List String) (sig : String),
        args.pause_after = 0 →
        (run_assess_mode ratio cwd args vtc vtf dd yf ck cp epk sig).viewTrace
            = strSort (dd.map Prod.fst)
          ∧ (run_assess_mode ratio cwd args vtc vtf dd yf ck cp epk sig).itemTrace
              = (strSort (dd.map Prod.fst)).flatMap (fun v =>
                  if (assocFind? vtc (normalize_view_name v)).isSome then
                    ((assocFind? dd v).getD []).map (fun f => (v, f.field))
                  else []))
      ∧ (∀ dd : List (String × List FieldInfo), applyModeViewTrace dd = dd.map Prod.fst) := by
  constructor
  · intro ratio cwd args vtc vtf dd yf ck cp epk sig h0
    rcases viewFold_progress ratio cwd args sig vtc vtf dd h0 (strSort (dd.map Prod.fst))
      { yamlFiles := yf, schemaWrites := [],
        completedKeys := epk.foldl addStr (dedupFirst ck),
        existingKeys := dedupFirst epk, processedCount := cp,
        enumCatalog := build_enum_catalog yf,
        existingEnumNames := (build_enum_catalog yf).map (fun e => e.name),
        rows := [], checkpointWrites := [], pauseCounter := 0, stopRequested := false,
        viewTrace := [], itemTrace := [] } rfl with ⟨h1, h2, -⟩
    exact ⟨(persistCheckpointState_viewTrace sig _).trans (h1.trans (List.nil_append _)),
      (persistCheckpointState_itemTrace sig _).trans (h2.trans (List.nil_append _))⟩
  · intro dd
    induction dd with
    | nil => rfl
    | cons e rest ih =>
      simp only [applyModeViewTrace, applyViewLoopTrace, Bool.false_eq_true, if_false] at ih ⊢
      rw [ih]
      rfl

/-- C2 amended claim witness: a concrete two-view dictionary is traversed
in sorted order by assess mode. -/
theorem c2_processing_order_amended_witness :
    (run_assess_mode (fun _ _ => 0) "/w"
        { mode := "assess", ai_provider := "gemini", enum_strategy := "reuse-first",
          boolean_rule := "strict", use_gemini_review := false,
          proposal_path := "p.csv", checkpoint_path := "c.json", resume := false,
          reset_checkpoint := false, pause_after := 0, modules_dir := "/w/modules",
          dry_run := false, gemini_timeout := 60, codex_timeout := 60,
          use_codex_fallback := false, auto_accept_gemini := false,
          confirm_attribute_changes := false }
        [] [] [("b", []), ("a", [])] [] [] 0 [] "sig").viewTrace
      = strSort ((([("b", []), ("a", [])] : List (String × List FieldInfo))).map Prod.fst) :=
  (c2_processing_order_amended.1 (fun _ _ => 0) "/w" _ [] []
    [("b", []), ("a", [])] [] [] 0 [] "sig" rfl).1

/-! ## Claim C3 -/

theorem docClassKeyCount_pos_of_mem {d : YamlDoc} {k : String} {cd : ClassDef}
    (h : (k, cd) ∈ d.classes.getD []) : 1 ≤ docClassKeyCount d k := by
  unfold docClassKeyCount
  exact Nat.succ_le_of_lt (List.countP_pos_iff.mpr ⟨(k, cd), h, by simp⟩)

theorem docClassKeyCount_le_store {files : YamlFiles} {p : String} {d : YamlDoc} {k : String}
    (h : (p, d) ∈ files) : docClassKeyCount d k ≤ storeClassKeyCount files k := by
  unfold storeClassKeyCount
  exact List.single_le_sum (fun x _ => Nat.zero_le x) _
    (List.mem_map.mpr ⟨(p, d), h, rfl⟩)

theorem docClassKeyCount_zero_find_none {d : YamlDoc} {k : String}
    (h : docClassKeyCount d k = 0) :
    (d.classes.getD []).find? (fun e => e.1 = k) = none := by
  apply List.find?_eq_none.mpr
  intro e he
  have := List.countP_eq_zero.mp h e he
  simpa using this

theorem exactClassPass_none_of_count_zero {files : YamlFiles} {k : String}
    (h : storeClassKeyCount files k = 0) : exactClassPass files k = none := by
  induction files with
  | nil => rfl
  | cons pd rest ih =>
    unfold storeClassKeyCount at h
    simp only [List.map_cons, List.sum_cons, Nat.add_eq_zero] at h
    rcases pd with ⟨p, d⟩
    simp only [exactClassPass]
    rw [docClassKeyCount_zero_find_none h.1]
    exact ih h.2

theorem storeCount_ge_two {files : YamlFiles} {k : String} {p1 p2 : String} {e1 e2 : YamlDoc}
    (h1 : (p1, e1) ∈ files) (h2 : (p2, e2) ∈ files) (hne : p1 ≠ p2)
    (c1 : 1 ≤ docClassKeyCount e1 k) (c2 : 1 ≤ docClassKeyCount e2 k) :
    2 ≤ storeClassKeyCount files k := by
  induction files with
  | nil => exact absurd h1 (List.not_mem_nil _)
  | cons pd rest ih =>
    rcases List.mem_cons.mp h1 with hh1 | ht1
    · rcases List.mem_cons.mp h2 with hh2 | ht2
      · exfalso
        apply hne
        rw [← hh2] at hh1
        exact (Prod.mk.injEq _ _ _ _).mp hh1 |>.1
      · unfold storeClassKeyCount
        simp only [List.map_cons, List.sum_cons]
        have hle : docClassKeyCount e2 k ≤ storeClassKeyCount rest k :=
          docClassKeyCount_le_store ht2
        have hpd : docClassKeyCount pd.2 k = docClassKeyCount e1 k := by rw [← hh1]
        calc 2 = 1 + 1 := rfl
          _ ≤ docClassKeyCount e1 k + docClassKeyCount e2 k := Nat.add_le_add c1 c2
          _ ≤ docClassKeyCount pd.2 k + storeClassKeyCount rest k := by
              rw [hpd]; exact Nat.add_le_add_left hle _
    · rcases List.mem_cons.mp h2 with hh2 | ht2
      · unfold storeClassKeyCount
        simp only [List.map_cons, List.sum_cons]
        have hle : docClassKeyCount e1 k ≤ storeClassKeyCount rest k :=
          docClassKeyCount_le_store ht1
        have hpd : docClassKeyCount pd.2 k = docClassKeyCount e2 k := by rw [← hh2]
        calc 2 = 1 + 1 := rfl
          _ ≤ docClassKeyCount e2 k + docClassKeyCount e1 k := Nat.add_le_add c2 c1
          _ ≤ docClassKeyCount pd.2 k + storeClassKeyCount rest k := by
              rw [hpd]; exact Nat.add_le_add_left hle _
      · have := ih ht1 ht2
        unfold storeClassKeyCount
        simp only [List.map_cons, List.sum_cons]
        exact this.trans (Nat.le_add_left _ _)

theorem exactClassPass_unique {files : YamlFiles} {k f1 : String} {d1 : YamlDoc} {cd1 : ClassDef}
    (hmem : (f1, d1) ∈ files) (hk : (k, cd1) ∈ d1.classes.getD [])
    (hcount : storeClassKeyCount files k = 1) :
    ∃ cd, exactClassPass files k = some (f1, k, cd) := by
  induction files with
  | nil => exact absurd hmem (List.not_mem_nil _)
  | cons pd rest ih =>
    rcases pd with ⟨p, d⟩
    rcases List.mem_cons.mp hmem with hh | ht
    · injection hh with h1 h2
      subst h1
      subst h2
      have hsome : (List.find? (fun e : String × ClassDef => decide (e.1 = k))
          (d1.classes.getD [])).isSome :=
        List.find?_isSome.mpr ⟨(k, cd1), hk, by simp⟩
      rcases Option.isSome_iff_exists.mp hsome with ⟨e, he⟩
      refine ⟨e.2, ?_⟩
      simp only [exactClassPass, he]
    · have hrest1 : 1 ≤ storeClassKeyCount rest k :=
        (docClassKeyCount_pos_of_mem hk).trans (docClassKeyCount_le_store ht)
      have hsum : docClassKeyCount d k + storeClassKeyCount rest k = 1 := hcount
      have hhead : docClassKeyCount d k = 0 := by omega
      have hrest : storeClassKeyCount rest k = 1 := by omega
      simp only [exactClassPass, docClassKeyCount_zero_find_none hhead]
      exact ih ht hrest

theorem assocFind?_of_mem_nodup {α : Type} {l : List (String × α)} {p : String} {v : α}
    (hnd : (l.map Prod.fst).Nodup) (hmem : (p, v) ∈ l) : assocFind? l p = some v := by
  induction l with
  | nil => exact absurd hmem (List.not_mem_nil _)
  | cons e rest ih =>
    rcases List.mem_cons.mp hmem with hh | ht
    · rw [← hh]
      exact assocFind?_cons_self _ _ _
    · have hne : e.1 ≠ p := by
        intro he
        apply (List.nodup_cons.mp hnd).1
        rw [he]
        exact List.mem_map.mpr ⟨(p, v), ht, rfl⟩
      simp only [assocFind?, List.find?, decide_eq_false hne]
      exact ih (List.nodup_cons.mp hnd).2 ht

theorem updateAt_mem_ne {α : Type} {l : List (String × α)} {q : String} {e : α} {p : String}
    (hmem : (q, e) ∈ l) (hne : q ≠ p) (f : α → α) : (q, e) ∈ updateAt l p f := by
  induction l with
  | nil => exact absurd hmem (List.not_mem_nil _)
  | cons x rest ih =>
    rcases x with ⟨xk, xv⟩
    rcases List.mem_cons.mp hmem with hh | ht
    · injection hh with h1 h2
      subst h1
      subst h2
      simp only [updateAt]
      rw [if_neg hne]
      exact List.mem_cons_self _ _
    · simp only [updateAt]
      split
      · exact List.mem_cons_of_mem _ ht
      · exact List.mem_cons_of_mem _ (ih ht)

theorem countP_key_removeFirst_of_one {α : Type} {l : List (String × α)} {key : String}
    (h : l.countP (fun e => e.1 = key) = 1) :
    (assocRemoveFirst l key).countP (fun e => e.1 = key) = 0 := by
  induction l with
  | nil => simp [assocRemoveFirst]
  | cons e rest ih =>
    rcases e with ⟨k, v⟩
    simp only [List.countP_cons] at h
    by_cases hk : k = key
    · have hpt : (decide ((k, v).1 = key)) = true := decide_eq_true hk
      rw [hpt, if_pos rfl] at h
      have hrest : rest.countP (fun e => decide (e.1 = key)) = 0 := by omega
      simp only [assocRemoveFirst, if_pos hk]
      exact hrest
    · have hpf : (decide ((k, v).1 = key)) = false := decide_eq_false hk
      rw [hpf] at h
      rw [if_neg (by simp)] at h
      rw [Nat.add_zero] at h
      simp only [assocRemoveFirst, if_neg hk]
      simp only [List.countP_cons]
      rw [hpf]
      rw [if_neg (by simp), Nat.add_zero]
      exact ih h

theorem countP_key_assocSet_ne {α : Type} {l : List (String × α)} {key key' : String}
    (hne : key' ≠ key) (v : α) :
    (assocSet l key' v).countP (fun e => e.1 = key) = l.countP (fun e => e.1 = key) := by
  induction l with
  | nil =>
    simp only [assocSet, List.countP_cons, List.countP_nil]
    rw [show (decide ((key', v).1 = key)) = false from decide_eq_false hne]
    simp
  | cons e rest ih =>
    rcases e with ⟨k, w⟩
    by_cases hk : k = key'
    · simp only [assocSet, if_pos hk, List.countP_cons]
    · simp only [assocSet, if_neg hk, List.countP_cons, ih]

theorem docCount_homeUpd_zero {d : YamlDoc} {old_name new_name : String}
    (hne : new_name ≠ old_name) (moved : ClassDef)
    (h1 : docClassKeyCount d old_name = 1) :
    docClassKeyCount
      { d with classes := some (assocSet
          (assocRemoveFirst (d.classes.getD []) old_name) new_name moved) } old_name = 0 := by
  show (assocSet (assocRemoveFirst (d.classes.getD []) old_name) new_name moved).countP
    (fun e => e.1 = old_name) = 0
  rw [countP_key_assocSet_ne hne]
  exact countP_key_removeFirst_of_one h1

theorem storeCount_eq_zero_of_all {files : YamlFiles} {k : String}
    (h : ∀ q e, (q, e) ∈ files → docClassKeyCount e k = 0) :
    storeClassKeyCount files k = 0 := by
  induction files with
  | nil => rfl
  | cons pd rest ih =>
    rcases pd with ⟨p, d⟩
    have hs : docClassKeyCount d k + storeClassKeyCount rest k = 0 := by
      rw [h p d (List.mem_cons_self _ _),
        ih (fun q e he => h q e (List.mem_cons_of_mem _ he))]
    exact hs

theorem storeCount_updateAt_zero {files : YamlFiles} {p : String} {d : YamlDoc} {k : String}
    (hnd : (files.map Prod.fst).Nodup) (hmem : (p, d) ∈ files)
    (hothers : ∀ q e, (q, e) ∈ files → q ≠ p → docClassKeyCount e k = 0)
    (f : YamlDoc → YamlDoc) (hnew : docClassKeyCount (f d) k = 0) :
    storeClassKeyCount (updateAt files p f) k = 0 := by
  induction files with
  | nil => rfl
  | cons pd rest ih =>
    rcases pd with ⟨q, e⟩
    by_cases hq : q = p
    · have hed : e = d := by
        rcases List.mem_cons.mp hmem with hh | ht
        · exact ((Prod.mk.injEq _ _ _ _).mp hh.symm).2
        · exfalso
          apply (List.nodup_cons.mp hnd).1
          rw [hq]
          exact List.mem_map.mpr ⟨(p, d), ht, rfl⟩
      subst hed
      simp only [updateAt, if_pos hq]
      have hrest : storeClassKeyCount rest k = 0 := by
        apply storeCount_eq_zero_of_all
        intro q2 e2 he2
        apply hothers q2 e2 (List.mem_cons_of_mem _ he2)
        intro hq2
        apply (List.nodup_cons.mp hnd).1
        rw [hq, ← hq2]
        exact List.mem_map.mpr ⟨(q2, e2), he2, rfl⟩
      show docClassKeyCount (f e) k + storeClassKeyCount rest k = 0
      rw [hnew, hrest]
    · have hmem2 : (p, d) ∈ rest := by
        rcases List.mem_cons.mp hmem with hh | ht
        · exact absurd ((Prod.mk.injEq _ _ _ _).mp hh.symm).1 hq
        · exact ht
      have he0 : docClassKeyCount e k = 0 :=
        hothers q e (List.mem_cons_self _ _) hq
      simp only [updateAt, if_neg hq]
      show docClassKeyCount e k + storeClassKeyCount (updateAt rest p f) k = 0
      rw [he0, ih (List.nodup_cons.mp hnd).2 hmem2
        (fun q2 e2 he2 hq2 => hothers q2 e2 (List.mem_cons_of_mem _ he2) hq2)]

theorem docCount_renameRewriteDoc (o n k : String) (d : YamlDoc) :
    docClassKeyCount ((renameRewriteDoc o n d).1) k = docClassKeyCount d k := by
  unfold docClassKeyCount renameRewriteDoc
  cases hc : d.classes with
  | none => simp [hc]
  | some cs =>
    simp only [hc]
    show List.countP (fun e => decide (e.1 = k))
        (cs.map (fun e => (e.1, rewriteClassDef o n e.2)))
      = List.countP (fun e => decide (e.1 = k)) cs
    rw [List.countP_map]
    apply List.countP_congr
    intro e _
    simp

theorem storeCount_map_rename (o n k : String) (l : YamlFiles) :
    storeClassKeyCount (l.map (fun pd => (pd.1, (renameRewriteDoc o n pd.2).1))) k
      = storeClassKeyCount l k := by
  induction l with
  | nil => rfl
  | cons pd rest ih =>
    show docClassKeyCount ((renameRewriteDoc o n pd.2).1) k
        + storeClassKeyCount (rest.map (fun pd => (pd.1, (renameRewriteDoc o n pd.2).1))) k
      = docClassKeyCount pd.2 k + storeClassKeyCount rest k
    rw [docCount_renameRewriteDoc, ih]

theorem attrRefs_clear {old_name new_name : String} (hne : new_name ≠ old_name) (a : AttrDef) :
    attrRefsClass (replaceClassRefInAttr old_name new_name a) old_name = false := by
  unfold attrRefsClass replaceClassRefInAttr
  rw [Bool.or_eq_false_iff]
  constructor
  · by_cases hr : a.range = some old_name
    · rw [if_pos hr]
      simp [hne]
    · rw [if_neg hr]
      simpa using hr
  · cases ha : a.any_of with
    | none => rfl
    | some opts =>
      show (opts.map (fun o =>
          if o.range = some old_name then { o with range := some new_name } else o)).any
          (fun o => decide (o.range = some old_name)) = false
      rw [List.any_eq_false]
      intro o ho
      rcases List.mem_map.mp ho with ⟨x, hx, hxo⟩
      subst hxo
      by_cases hxr : x.range = some old_name
      · rw [if_pos hxr]
        simp [hne]
      · rw [if_neg hxr]
        simpa using hxr

theorem rewriteClassDef_is_a {old_name new_name : String} (hne : new_name ≠ old_name)
    (cd : ClassDef) : (rewriteClassDef old_name new_name cd).is_a ≠ some old_name := by
  show (if cd.is_a = some old_name then some new_name else cd.is_a) ≠ some old_name
  by_cases h : cd.is_a = some old_name
  · rw [if_pos h]
    simp [hne]
  · rw [if_neg h]
    exact h

theorem rewriteClassDef_mixins {old_name new_name : String} (hne : new_name ≠ old_name)
    (cd : ClassDef) :
    ((rewriteClassDef old_name new_name cd).mixins.getD []).contains old_name = false := by
  have hexpose : (rewriteClassDef old_name new_name cd).mixins
      = cd.mixins.map (fun ms => ms.map (fun m => if m = old_name then new_name else m)) := rfl
  rw [hexpose]
  cases cd.mixins with
  | none => rfl
  | some ms =>
    show ((ms.map (fun m => if m = old_name then new_name else m)).contains old_name) = false
    apply Bool.eq_false_iff.mpr
    intro hc
    have hmem : old_name ∈ ms.map (fun m => if m = old_name then new_name else m) := by
      simpa [List.contains, List.elem_iff] using hc
    rcases List.mem_map.mp hmem with ⟨x, -, hx⟩
    by_cases hxo : x = old_name
    · rw [if_pos hxo] at hx
      exact hne hx
    · rw [if_neg hxo] at hx
      exact hxo hx

theorem rewriteClassDef_attrs {old_name new_name : String} (hne : new_name ≠ old_name)
    (cd : ClassDef) :
    ((rewriteClassDef old_name new_name cd).attributes.getD []).any
      (fun ae => attrRefsClass ae.2 old_name) = false := by
  have hexpose : (rewriteClassDef old_name new_name cd).attributes
      = cd.attributes.map (fun attrs =>
          attrs.map (fun e => (e.1, replaceClassRefInAttr old_name new_name e.2))) := rfl
  rw [hexpose]
  cases cd.attributes with
  | none => rfl
  | some attrs =>
    show ((attrs.map (fun e => (e.1, replaceClassRefInAttr old_name new_name e.2))).any
      (fun ae => attrRefsClass ae.2 old_name)) = false
    rw [List.any_eq_false]
    intro ae hae
    rcases List.mem_map.mp hae with ⟨x, -, hx⟩
    subst hx
    simp [attrRefs_clear hne]

theorem docRefs_clear {old_name new_name : String} (hne : new_name ≠ old_name) (d : YamlDoc) :
    docRefsClass ((renameRewriteDoc old_name new_name d).1) old_name = false := by
  unfold docRefsClass
  rw [Bool.or_eq_false_iff]
  have hexpc : (renameRewriteDoc old_name new_name d).1.classes
      = d.classes.map (fun cs =>
          cs.map (fun e => (e.1, rewriteClassDef old_name new_name e.2))) := rfl
  have hexps : (renameRewriteDoc old_name new_name d).1.slots
      = d.slots.map (fun sl =>
          sl.map (fun e => (e.1, replaceClassRefInAttr old_name new_name e.2))) := rfl
  constructor
  · rw [hexpc]
    cases d.classes with
    | none => rfl
    | some cs =>
      show ((cs.map (fun e => (e.1, rewriteClassDef old_name new_name e.2))).any
        (fun e => decide (e.2.is_a = some old_name)
          || (e.2.mixins.getD []).contains old_name
          || (e.2.attributes.getD []).any (fun ae => attrRefsClass ae.2 old_name))) = false
      rw [List.any_eq_false]
      intro e he
      rcases List.mem_map.mp he with ⟨x, -, hx⟩
      subst hx
      simp only [Bool.or_eq_true, decide_eq_true_eq, not_or, Bool.not_eq_true]
      refine ⟨⟨?_, ?_⟩, ?_⟩
      · simpa using rewriteClassDef_is_a hne x.2
      · exact rewriteClassDef_mixins hne x.2
      · exact rewriteClassDef_attrs hne x.2
  · rw [hexps]
    cases d.slots with
    | none => rfl
    | some sl =>
      show ((sl.map (fun e => (e.1, replaceClassRefInAttr old_name new_name e.2))).any
        (fun se => attrRefsClass se.2 old_name)) = false
      rw [List.any_eq_false]
      intro se hse
      rcases List.mem_map.mp hse with ⟨x, -, hx⟩
      subst hx
      simp [attrRefs_clear hne]

theorem assocFind?_of_countP_one {α : Type} {l : List (String × α)} {k : String} {v : α}
    (h : l.countP (fun e => decide (e.1 = k)) = 1) (hm : (k, v) ∈ l) :
    assocFind? l k = some v := by
  induction l with
  | nil => exact absurd hm (List.not_mem_nil _)
  | cons x rest ih =>
    rcases x with ⟨xk, xv⟩
    by_cases hx : xk = k
    · subst hx
      have hrest0 : List.countP (fun e => decide ((e : String × α).1 = xk)) rest = 0 := by
        rw [List.countP_cons_of_pos] at h
        · omega
        · simp
      rcases List.mem_cons.mp hm with hh | ht
      · injection hh with h1 h2
        subst h2
        exact assocFind?_cons_self _ _ _
      · exfalso
        have hpos : 0 < List.countP (fun e => decide ((e : String × α).1 = xk)) rest :=
          List.countP_pos_iff.mpr ⟨(xk, v), ht, by simp⟩
        omega
    · have hm2 : (k, v) ∈ rest := by
        rcases List.mem_cons.mp hm with hh | ht
        · injection hh with h1 h2
          exact absurd h1.symm hx
        · exact ht
      have hc2 : List.countP (fun e => decide ((e : String × α).1 = k)) rest = 1 := by
        rw [List.countP_cons] at h
        simpa [hx] using h
      simp only [assocFind?, List.find?, decide_eq_false hx]
      exact ih hc2 hm2

theorem mem_assocSet_self {α : Type} (l : List (String × α)) (k : String) (v : α) :
    (k, v) ∈ assocSet l k v := by
  induction l with
  | nil => exact List.mem_cons_self _ _
  | cons x rest ih =>
    rcases x with ⟨xk, xv⟩
    by_cases hx : xk = k
    · subst hx
      show (xk, v) ∈ if xk = xk then (xk, v) :: rest else (xk, xv) :: assocSet rest xk v
      rw [if_pos rfl]
      exact List.mem_cons_self _ _
    · show (k, v) ∈ if xk = k then (xk, v) :: rest else (xk, xv) :: assocSet rest k v
      rw [if_neg hx]
      exact List.mem_cons_of_mem _ ih

theorem updateAt_mem_self {α : Type} {l : List (String × α)} {p : String} {d : α}
    (hnd : (l.map Prod.fst).Nodup) (hmem : (p, d) ∈ l) (f : α → α) :
    (p, f d) ∈ updateAt l p f := by
  induction l with
  | nil => exact absurd hmem (List.not_mem_nil _)
  | cons x rest ih =>
    rcases x with ⟨xk, xv⟩
    rcases List.mem_cons.mp hmem with hh | ht
    · injection hh with h1 h2
      subst h1
      subst h2
      show (p, f d) ∈ if p = p then (p, f d) :: rest else (p, d) :: updateAt rest p f
      rw [if_pos rfl]
      exact List.mem_cons_self _ _
    · have hxp : xk ≠ p := by
        intro he
        apply (List.nodup_cons.mp hnd).1
        rw [he]
        exact List.mem_map.mpr ⟨(p, d), ht, rfl⟩
      show (p, f d) ∈ if xk = p then (xk, f xv) :: rest else (xk, xv) :: updateAt rest p f
      rw [if_neg hxp]
      exact List.mem_cons_of_mem _ (ih (List.nodup_cons.mp hnd).2 ht)

theorem rename_success_components (ratio : String → String → ℚ) (files : YamlFiles)
    (old_name new_name f1 : String) (cd : ClassDef) (d1 : YamlDoc)
    (hne0 : ¬ (old_name = new_name))
    (hfindOld : find_class_in_yaml ratio files old_name true = some (f1, old_name, cd))
    (hfindNew : find_class_in_yaml ratio files new_name false = none)
    (hN1 : assocFind? files f1 = some d1) :
    (rename_class_and_references ratio files old_name new_name).renamed = true
      ∧ (rename_class_and_references ratio files old_name new_name).files
          = (updateAt files f1 (fun d =>
              { d with classes := some (assocSet
                  (assocRemoveFirst (d.classes.getD []) old_name) new_name
                  ((assocFind? (d1.classes.getD []) old_name).getD emptyClassDef)) })).map
            (fun pd => (pd.1, (renameRewriteDoc old_name new_name pd.2).1)) := by
  simp only [rename_class_and_references, hne0, if_false, hfindOld, hfindNew, hN1,
    Option.getD_some]
  exact ⟨rfl, rfl⟩

/-- C3: renaming class `Demog` to `Demographics` — when `Demog` is the
unique class under that key, `Demographics` exists nowhere, and a class
`DemogDetail` in a different loaded file has `is_a: Demog` — succeeds,
relocates the definition under the new key in its home file (the home
document in the output holds `Demographics` mapped to the moved `Demog`
definition, reference-rewritten, and is exactly the old document with the
key moved and every reference substituted), leaves the key `Demog`
surviving in no loaded file, leaves no `is_a`/`mixins`/attribute-or-slot
`range` (including `any_of` alternatives) equal to `Demog` anywhere,
rewrites every other document in place to its `Demog`→`Demographics`
reference-substitution image (so references are rewritten, never
dropped), and in particular rewrites `DemogDetail`'s `is_a` to
`Demographics`. -/
theorem c3_rename_demog_class (ratio : String → String → ℚ) (files : YamlFiles)
    (f1 f2 : String) (d1 d2 : YamlDoc) (demogDef detailDef : ClassDef)
    (hnd : (files.map Prod.fst).Nodup)
    (h1 : (f1, d1) ∈ files)
    (hk1 : ("Demog", demogDef) ∈ d1.classes.getD [])
    (hcount : storeClassKeyCount files "Demog" = 1)
    (hnew : storeClassKeyCount files "Demographics" = 0)
    (h2 : (f2, d2) ∈ files) (hne12 : f2 ≠ f1)
    (hk2 : ("DemogDetail", detailDef) ∈ d2.classes.getD [])
    (hisa : detailDef.is_a = some "Demog") :
    (rename_class_and_references ratio files "Demog" "Demographics").renamed = true
      ∧ storeClassKeyCount
          (rename_class_and_references ratio files "Demog" "Demographics").files "Demog" = 0
      ∧ (∀ pd ∈ (rename_class_and_references ratio files "Demog" "Demographics").files,
          docRefsClass pd.2 "Demog" = false)
      ∧ (∃ d2', (f2, d2')
            ∈ (rename_class_and_references ratio files "Demog" "Demographics").files
          ∧ ∃ cd2, ("DemogDetail", cd2) ∈ d2'.classes.getD []
              ∧ cd2.is_a = some "Demographics")
      ∧ (∃ d1', (f1, d1')
            ∈ (rename_class_and_references ratio files "Demog" "Demographics").files
          ∧ d1' = (renameRewriteDoc "Demog" "Demographics"
              { d1 with classes := some (assocSet
                  (assocRemoveFirst (d1.classes.getD []) "Demog")
                  "Demographics" demogDef) }).1
          ∧ ("Demographics", rewriteClassDef "Demog" "Demographics" demogDef)
              ∈ d1'.classes.getD [])
      ∧ (∀ p d, (p, d) ∈ files → p ≠ f1 →
          (p, (renameRewriteDoc "Demog" "Demographics" d).1)
            ∈ (rename_class_and_references ratio files "Demog" "Demographics").files) := by
  obtain ⟨cd, hexact⟩ := exactClassPass_unique h1 hk1 hcount
  have hfindOld : find_class_in_yaml ratio files "Demog" true = some (f1, "Demog", cd) := by
    unfold find_class_in_yaml
    rw [hexact]
  have hnone : exactClassPass files "Demographics" = none :=
    exactClassPass_none_of_count_zero hnew
  have hfindNew : find_class_in_yaml ratio files "Demographics" false = none := by
    unfold find_class_in_yaml
    rw [hnone]
    rfl
  have hN1 : assocFind? files f1 = some d1 := assocFind?_of_mem_nodup hnd h1
  obtain ⟨hren, hfiles⟩ := rename_success_components ratio files "Demog" "Demographics" f1 cd
    d1 (by decide) hfindOld hfindNew hN1
  have hnewne : ("Demographics" : String) ≠ "Demog" := by decide
  have hle : docClassKeyCount d1 "Demog" ≤ 1 := hcount ▸ docClassKeyCount_le_store h1
  have hge : 1 ≤ docClassKeyCount d1 "Demog" := docClassKeyCount_pos_of_mem hk1
  have hd1c : docClassKeyCount d1 "Demog" = 1 := by omega
  have hfind1 : assocFind? (d1.classes.getD []) "Demog" = some demogDef :=
    assocFind?_of_countP_one hd1c hk1
  have hmv : (assocFind? (d1.classes.getD []) "Demog").getD emptyClassDef = demogDef := by
    rw [hfind1]
    rfl
  simp only [hmv] at hfiles
  refine ⟨hren, ?_, ?_, ?_, ?_, ?_⟩
  · rw [hfiles, storeCount_map_rename]
    apply storeCount_updateAt_zero hnd h1
    · intro q e he hq
      by_contra hne0
      have hge2 : 1 ≤ docClassKeyCount e "Demog" := Nat.one_le_iff_ne_zero.mpr hne0
      have := storeCount_ge_two he h1 hq hge2 (docClassKeyCount_pos_of_mem hk1)
      omega
    · exact docCount_homeUpd_zero hnewne _ hd1c
  · rw [hfiles]
    intro pd hpd
    rcases List.mem_map.mp hpd with ⟨x, -, hx⟩
    subst hx
    exact docRefs_clear hnewne x.2
  · rw [hfiles]
    refine ⟨(renameRewriteDoc "Demog" "Demographics" d2).1,
      List.mem_map.mpr ⟨(f2, d2), updateAt_mem_ne h2 hne12 _, rfl⟩,
      rewriteClassDef "Demog" "Demographics" detailDef, ?_, ?_⟩
    · have hexpc : (renameRewriteDoc "Demog" "Demographics" d2).1.classes
          = d2.classes.map (fun cs =>
              cs.map (fun e => (e.1, rewriteClassDef "Demog" "Demographics" e.2))) := rfl
      rw [hexpc]
      cases hcl : d2.classes with
      | none =>
        rw [hcl] at hk2
        exact absurd hk2 (List.not_mem_nil _)
      | some l2 =>
        rw [hcl] at hk2
        show ("DemogDetail", rewriteClassDef "Demog" "Demographics" detailDef)
          ∈ l2.map (fun e => (e.1, rewriteClassDef "Demog" "Demographics" e.2))
        exact List.mem_map.mpr ⟨("DemogDetail", detailDef), hk2, rfl⟩
    · show (if detailDef.is_a = some "Demog" then some "Demographics" else detailDef.is_a)
        = some "Demographics"
      rw [if_pos hisa]
  · rw [hfiles]
    refine ⟨(renameRewriteDoc "Demog" "Demographics"
        { d1 with classes := some (assocSet
            (assocRemoveFirst (d1.classes.getD []) "Demog") "Demographics" demogDef) }).1,
      List.mem_map.mpr ⟨(f1, { d1 with classes := some (assocSet
            (assocRemoveFirst (d1.classes.getD []) "Demog") "Demographics" demogDef) }),
        updateAt_mem_self hnd h1 _, rfl⟩, rfl, ?_⟩
    show ("Demographics", rewriteClassDef "Demog" "Demographics" demogDef)
      ∈ (assocSet (assocRemoveFirst (d1.classes.getD []) "Demog") "Demographics" demogDef).map
          (fun e => (e.1, rewriteClassDef "Demog" "Demographics" e.2))
    exact List.mem_map.mpr ⟨("Demographics", demogDef), mem_assocSet_self _ _ _, rfl⟩
  · rw [hfiles]
    intro p d hpd hpne
    exact List.mem_map.mpr ⟨(p, d), updateAt_mem_ne hpd hpne _, rfl⟩

/-- C3 witness: a concrete two-file store where `modules/a.yaml` holds
`Demog` and `modules/b.yaml` holds `DemogDetail` with `is_a: Demog`. -/
theorem c3_rename_demog_class_witness :
    (rename_class_and_references (fun _ _ => 0)
        [("modules/a.yaml",
          { classes := some [("Demog",
              { is_a := some "ClinicalAssessment", mixins := none,
                description := some "Demographics", attributes := none })],
            slots := none, enums := none }),
         ("modules/b.yaml",
          { classes := some [("DemogDetail",
              { is_a := some "Demog", mixins := none, description := none,
                attributes := none })],
            slots := none, enums := none })]
        "Demog" "Demographics").renamed = true :=
  (c3_rename_demog_class (fun _ _ => 0)
    [("modules/a.yaml",
      { classes := some [("Demog",
          { is_a := some "ClinicalAssessment", mixins := none,
            description := some "Demographics", attributes := none })],
        slots := none, enums := none }),
     ("modules/b.yaml",
      { classes := some [("DemogDetail",
          { is_a := some "Demog", mixins := none, description := none,
            attributes := none })],
        slots := none, enums := none })]
    "modules/a.yaml" "modules/b.yaml"
    { classes := some [("Demog",
        { is_a := some "ClinicalAssessment", mixins := none,
          description := some "Demographics", attributes := none })],
      slots := none, enums := none }
    { classes := some [("DemogDetail",
        { is_a := some "Demog", mixins := none, description := none,
          attributes := none })],
      slots := none, enums := none }
    { is_a := some "ClinicalAssessment", mixins := none,
      description := some "Demographics", attributes := none }
    { is_a := some "Demog", mixins := none, description := none, attributes := none }
    (by decide) (by decide) (by decide) (by decide) (by decide) (by decide) (by decide)
    (by decide) (by decide)).1
